import Mathlib

/-!
Shallow embedding of the packing engine of the Forklift-Desirer repository
(`src/services/packer.ts`, types from `src/types.ts`, container catalogue from
`src/constants.ts`), together with proofs settling the specification claims.

JavaScript numbers are modelled by exact rationals; all inputs the engine
handles are integer centimetres and kilograms, on which JS float64 arithmetic
coincides with exact arithmetic for the operations used here.
-/

-- Batteries marks the rational operations irreducible, which blocks kernel
-- evaluation of concrete runs; restore default reducibility (proof-irrelevant).
set_option allowUnsafeReducibility true in
attribute [semireducible] Rat.add Rat.sub Rat.mul Rat.div Rat.inv Rat.neg Rat.ofScientific

namespace FD

/-- `types.ts` : `Dimensions` (oriented length/width/height in cm). -/
structure Dimensions where
  length : ℚ
  width : ℚ
  height : ℚ
deriving DecidableEq

/-- The `{l, w, h}` dimension records used inside `packer.ts` (`BoxToPack.dim`). -/
structure Dim where
  l : ℚ
  w : ℚ
  h : ℚ
deriving DecidableEq

/-- A `{x, y, z}` position; also the `Anchor` record of `packer.ts`. -/
structure Pos where
  x : ℚ
  y : ℚ
  z : ℚ
deriving DecidableEq

/-- `types.ts` : `CargoItem`. The optional `unstackable` flag is a `Bool`
(JS `undefined` and `false` behave identically in every use below). -/
structure CargoItem where
  id : String
  name : String
  dimensions : Dimensions
  weight : ℚ
  color : String
  quantity : ℕ
  unstackable : Bool
deriving DecidableEq

/-- `types.ts` : `ContainerSpec`. `type` is the literal string tag. -/
structure DoorDims where
  width : ℚ
  height : ℚ
deriving DecidableEq

structure ContainerSpec where
  type : String
  name : String
  dimensions : Dimensions
  doorDimensions : DoorDims
  maxWeight : ℚ
  volume : ℚ
deriving DecidableEq

/-- Stands for the placed-item id string `c{c}-b{b}` built in `packer.ts`;
that formatting is injective in `(c, b)`, so equality of `ItemId`s coincides
with equality of the source id strings, which are only ever compared. -/
structure ItemId where
  c : ℕ
  b : ℕ
deriving DecidableEq

/-- `types.ts` : `PlacedItem`. -/
structure PlacedItem where
  id : ItemId
  cargoId : String
  position : Pos
  dimensions : Dimensions
  rotation : Bool
  color : String
  name : String
  weight : ℚ
  sequence : ℕ
  containerIndex : ℕ
  unstackable : Bool
deriving DecidableEq

/-- `packer.ts` : `BoxToPack`. -/
structure BoxToPack where
  id : String
  cargoId : String
  dim : Dim
  wt : ℚ
  color : String
  name : String
  originalItem : CargoItem
  unstackable : Bool
deriving DecidableEq

/-- `types.ts` : `PackingResult`. -/
structure PackingResult where
  containerType : String
  placedItems : List PlacedItem
  unplacedItems : List CargoItem
  totalVolume : ℚ
  usedVolume : ℚ
  volumeUtilization : ℚ
  totalWeight : ℚ
  weightUtilization : ℚ
  totalCargoCount : ℕ
deriving DecidableEq

/-! Constants of `packer.ts`. -/

def OPERATION_BUFFER : ℚ := 2
def FORKLIFT_LIFT_MARGIN : ℚ := 15
def FORKLIFT_WIDTH : ℚ := 110
def FORKLIFT_MAST_HEIGHT : ℚ := 160
def FORKLIFT_CHASSIS_HEIGHT : ℚ := 140
def WALL_BUFFER : ℚ := 2
def Z_ZONE_SIZE : ℚ := 150
def SUPPORT_THRESHOLD : ℚ := 0.85
def MIN_AREA_DIFF_FOR_SORT : ℚ := 50
def MIN_QTY_DIFF_FOR_SORT : ℚ := 10
def ADHESION_BONUS : ℚ := 50
def FLUSH_BONUS : ℚ := 200
def GRID_SIZE : ℚ := 50

/-- JS `Number.MAX_SAFE_INTEGER`, the initial best score of the packer loop. -/
def maxSafeInteger : ℚ := 9007199254740991

/-! The container catalogue of `constants.ts`. -/

def c20GP : ContainerSpec :=
  { type := "20GP", name := "20ft General Purpose",
    dimensions := ⟨580, 235, 239⟩, doorDimensions := ⟨234, 228⟩,
    maxWeight := 28000, volume := 33.1 }

def c40GP : ContainerSpec :=
  { type := "40GP", name := "40ft General Purpose",
    dimensions := ⟨1185, 235, 239⟩, doorDimensions := ⟨234, 228⟩,
    maxWeight := 28000, volume := 67.5 }

def c40HQ : ContainerSpec :=
  { type := "40HQ", name := "40ft High Cube",
    dimensions := ⟨1185, 235, 269⟩, doorDimensions := ⟨234, 258⟩,
    maxWeight := 28500, volume := 76.1 }

def CONTAINERS : List ContainerSpec := [c20GP, c40GP, c40HQ]

/-! Geometry and the spatial grid. -/

/-- `packer.ts` : `calculateSupportArea` — footprint overlap of a candidate
base and one support. -/
def calculateSupportArea (baseX baseZ baseL baseW supportX supportZ supportL supportW : ℚ) : ℚ :=
  let xOverlap := max 0 (min (baseX + baseL) (supportX + supportL) - max baseX supportX)
  let zOverlap := max 0 (min (baseZ + baseW) (supportZ + supportW) - max baseZ supportZ)
  xOverlap * zOverlap

/-- The sparse JS array `xGridItems` of x-binned buckets (`packer.ts`,
`packSingleContainerAsync`): reading an unset index yields `undefined`, which
every loop skips exactly like an empty bucket, so buckets are modelled as a
total function defaulting to `[]`; `len` mirrors the array `.length`. -/
structure Grid where
  len : ℕ
  buckets : ℕ → List PlacedItem

def emptyGrid : Grid := ⟨0, fun _ => []⟩

/-- `Math.floor(q / GRID_SIZE)`. All positions fed to it are nonnegative
(established as an invariant below), so the `Int.toNat` clamp is inert and
also subsumes the explicit `Math.max(0, ...)` at some query sites. -/
def binOf (q : ℚ) : ℕ := (Rat.floor (q / GRID_SIZE)).toNat

/-- `packer.ts` : `addItemToGrid` — push the item into every bucket its
x-extent crosses, growing the array length as JS assignment does. -/
def addItemToGrid (g : Grid) (item : PlacedItem) : Grid :=
  let minBin := binOf item.position.x
  let maxBin := binOf (item.position.x + item.dimensions.length)
  { len := max g.len (maxBin + 1),
    buckets := fun b =>
      if minBin ≤ b ∧ b ≤ maxBin then g.buckets b ++ [item] else g.buckets b }

/-- The items seen by a loop `for (b = lo; b <= hi; b++)` over buckets,
concatenated in visit order. -/
def visitedBins (g : Grid) (lo hi : ℕ) : List PlacedItem :=
  ((List.range' lo (hi + 1 - lo)).map g.buckets).flatten

/-- The items seen by a loop `for (b = lo; b < xGridItems.length; b++)`. -/
def visitedFrom (g : Grid) (lo : ℕ) : List PlacedItem :=
  ((List.range' lo (g.len - lo)).map g.buckets).flatten

/-- The `checkedIds : Set<string>` pattern of the source grid scans: every
visited item adds its id to the set before any further test, so a scan is a
plain fold over the id-deduplicated visit list. -/
def dedupById : List PlacedItem → List ItemId → List PlacedItem
  | [], _ => []
  | it :: rest, seen =>
      if it.id ∈ seen then dedupById rest seen
      else it :: dedupById rest (it.id :: seen)

/-! Feasibility predicates of `packer.ts`. -/

/-- `packer.ts` : `CheckSupportBelow` result record. -/
structure SupportInfo where
  supportedArea : ℚ
  maxSupportBaseArea : ℚ
deriving DecidableEq

/-- `packer.ts` : `CheckSupportBelow` — total support area directly below a
candidate footprint and the largest single supporter base area. -/
def CheckSupportBelow (boxX boxY boxZ boxL boxW : ℚ) (g : Grid) : SupportInfo :=
  if boxY < 0.1 then ⟨boxL * boxW, 999999⟩
  else
    (dedupById (visitedBins g (binOf boxX) (binOf (boxX + boxL))) []).foldl
      (fun st item =>
        let itemTop := item.position.y + item.dimensions.height
        if |itemTop - boxY| < 1.0 then
          let overlap := calculateSupportArea boxX boxZ boxL boxW
            item.position.x item.position.z item.dimensions.length item.dimensions.width
          if 0 < overlap then
            let itemBaseArea := item.dimensions.length * item.dimensions.width
            ⟨st.supportedArea + overlap,
             if st.maxSupportBaseArea < itemBaseArea then itemBaseArea else st.maxSupportBaseArea⟩
          else st
        else st)
      ⟨0, 0⟩

/-- `packer.ts` : `canFitThroughDoor`. -/
def canFitThroughDoor (box : BoxToPack) (door : DoorDims) : Bool :=
  let fitsNormal := decide (box.dim.w ≤ door.width ∧ box.dim.h ≤ door.height)
  let fitsRotated := decide (box.dim.l ≤ door.width ∧ box.dim.h ≤ door.height)
  fitsNormal || fitsRotated

/-- A candidate interval for the forklift chassis centre z. -/
structure Iv where
  min : ℚ
  max : ℚ
deriving DecidableEq

/-- One obstacle subtraction step of `checkForkliftAccess`: remove the
forbidden range `[fmin, fmax]` from each interval, keeping order. -/
def subtractForbidden (intervals : List Iv) (fmin fmax : ℚ) : List Iv :=
  intervals.flatMap (fun interval =>
    if fmin ≤ interval.min ∧ interval.max ≤ fmax then []
    else if fmax ≤ interval.min ∨ interval.max ≤ fmin then [interval]
    else
      (if interval.min < fmin then [⟨interval.min, fmin⟩] else []) ++
      (if fmax < interval.max then [⟨fmax, interval.max⟩] else []))

/-- `packer.ts` : `checkForkliftAccess`. The source's early `return false` on
an empty interval list is equivalent to continuing the fold with `[]`, which
every later subtraction leaves empty. -/
def checkForkliftAccess (targetPos : Pos) (boxDim : Dim) (containerDim : Dim) (g : Grid) : Bool :=
  let boxCenterZ := targetPos.z + boxDim.w / 2
  let halfChassisW := FORKLIFT_WIDTH / 2
  let sideShift : ℚ := 60
  let minWallZ := halfChassisW + WALL_BUFFER
  let maxWallZ := containerDim.w - halfChassisW - WALL_BUFFER
  let minReachZ := boxCenterZ - sideShift
  let maxReachZ := boxCenterZ + sideShift
  let validMinZ := max minWallZ minReachZ
  let validMaxZ := min maxWallZ maxReachZ
  if validMaxZ + 0.01 < validMinZ then false
  else
    let startX := targetPos.x + boxDim.l
    let endX := containerDim.l
    let finalIntervals :=
      (dedupById (visitedFrom g (binOf startX)) []).foldl
        (fun ivs item =>
          if FORKLIFT_CHASSIS_HEIGHT < item.position.y then ivs
          else if item.position.x + item.dimensions.length ≤ startX then ivs
          else if endX ≤ item.position.x then ivs
          else
            let xOverlap := max 0
              (min endX (item.position.x + item.dimensions.length) - max startX item.position.x)
            if xOverlap ≤ 0.1 then ivs
            else
              let yOverlap := max 0
                (min FORKLIFT_MAST_HEIGHT (item.position.y + item.dimensions.height) -
                 max 0 item.position.y)
              if yOverlap ≤ 0.1 then ivs
              else subtractForbidden ivs
                (item.position.z - halfChassisW)
                (item.position.z + item.dimensions.width + halfChassisW))
        [⟨validMinZ, validMaxZ⟩]
    decide (finalIntervals ≠ [])

/-- State of the support scan inside `checkValidity`: `ok = false` records the
source's early `return false` upon an unstackable supporter (every later item
is then ignored, as the source has already returned). -/
structure SupportScanState where
  ok : Bool
  total : ℚ
deriving DecidableEq

/-- One step of the support loop of `checkValidity`. -/
def supportStep (pos : Pos) (dim : Dim) (st : SupportScanState) (item : PlacedItem) :
    SupportScanState :=
  if st.ok then
    if |item.position.y + item.dimensions.height - pos.y| < 0.1 then
      let area := calculateSupportArea pos.x pos.z dim.l dim.w
        item.position.x item.position.z item.dimensions.length item.dimensions.width
      if 0 < area then
        if item.unstackable then ⟨false, st.total⟩ else ⟨true, st.total + area⟩
      else st
    else st
  else st

/-- The `pos.y > 0` support loop of `checkValidity`, folded over the
id-deduplicated visit list. -/
def supportScan (items : List PlacedItem) (pos : Pos) (dim : Dim) : SupportScanState :=
  items.foldl (supportStep pos dim) ⟨true, 0⟩

/-- `packer.ts` : `checkValidity` — bounds, grid collision, forklift access,
and (above the floor) the 70 % support rule. -/
def checkValidity (pos : Pos) (dim : Dim) (containerDim : Dim) (g : Grid) : Bool :=
  if containerDim.l < pos.x + dim.l then false
  else if containerDim.h - FORKLIFT_LIFT_MARGIN < pos.y + dim.h then false
  else if containerDim.w < pos.z + dim.w then false
  else
    let minBin := binOf pos.x
    let maxBin := binOf (pos.x + dim.l)
    let collision := (visitedBins g minBin maxBin).any (fun item =>
      decide (pos.x < item.position.x + item.dimensions.length ∧
              item.position.x < pos.x + dim.l ∧
              pos.y < item.position.y + item.dimensions.height ∧
              item.position.y < pos.y + dim.h ∧
              pos.z < item.position.z + item.dimensions.width ∧
              item.position.z < pos.z + dim.w))
    if collision then false
    else if !(checkForkliftAccess pos dim containerDim g) then false
    else if 0 < pos.y then
      let requiredArea := dim.l * dim.w
      let scan := supportScan (dedupById (visitedBins g minBin maxBin) []) pos dim
      if scan.ok then decide (¬(scan.total / requiredArea < 0.70)) else false
    else true

/-! The single-container packer (`packSingleContainerAsync`). -/

/-- Per-container constants computed before the main loop: the usable interior
`cDim` (interior minus `OPERATION_BUFFER` on each axis) and the unstackable
look-ahead data derived from the initial candidate pool. -/
structure PackCtx where
  spec : ContainerSpec
  cDim : Dim
  containerIndex : ℕ
  targetPlatformLevels : List ℚ
  minUnstackableH : ℚ
  maxUnstackableH : ℚ

/-- Sort a list of rationals descending (`.sort((a,b) => b-a)`). -/
def sortDescQ (l : List ℚ) : List ℚ := List.insertionSort (fun a b => b ≤ a) l

def mkCtx (containerSpec : ContainerSpec) (boxes : List BoxToPack) (containerIndex : ℕ) :
    PackCtx :=
  let cDim : Dim := ⟨containerSpec.dimensions.length - OPERATION_BUFFER,
                     containerSpec.dimensions.width - OPERATION_BUFFER,
                     containerSpec.dimensions.height - OPERATION_BUFFER⟩
  let unstackableHeights := sortDescQ ((boxes.filter (fun b => b.unstackable)).map
    (fun b => b.dim.h)).dedup
  { spec := containerSpec, cDim := cDim, containerIndex := containerIndex,
    targetPlatformLevels := unstackableHeights.map (fun h => cDim.h - h),
    minUnstackableH := (unstackableHeights.getLast?).getD 0,
    maxUnstackableH := (unstackableHeights.head?).getD 0 }

/-- The `while (optimizedZ - step >= 0)` slide of `optimizeZ`, with fuel; at
most `⌈z⌉` steps ever run since each one lowers `z` by `1` and the loop exits
once `z - 1 < 0`. -/
def optimizeZGo (cDim : Dim) (g : Grid) (startPos : Pos) (dim : Dim) : ℕ → ℚ → ℚ
  | 0, z => z
  | Nat.succ fuel, z =>
      if 0 ≤ z - 1 then
        if checkValidity ⟨startPos.x, startPos.y, z - 1⟩ dim cDim g then
          optimizeZGo cDim g startPos dim fuel (z - 1)
        else z
      else z

/-- `packer.ts` : `optimizeZ` — slide floor placements toward smaller z in
1 cm steps while they stay valid; stacked placements (y > 0.1) never slide. -/
def optimizeZ (cDim : Dim) (g : Grid) (startPos : Pos) (dim : Dim) : ℚ :=
  if 0.1 < startPos.y then startPos.z
  else optimizeZGo cDim g startPos dim (Rat.ceil startPos.z).toNat startPos.z

/-- `packer.ts` : `hasAdhesionNeighbor` — a touching neighbour within 1 cm;
on the floor only same-cargo neighbours count. -/
def hasAdhesionNeighbor (g : Grid) (pos : Pos) (dim : Dim) (cId : String) : Bool :=
  let proximity : ℚ := 1.0
  let minX := pos.x - proximity
  let maxX := pos.x + dim.l + proximity
  let minY := pos.y - proximity
  let maxY := pos.y + dim.h + proximity
  let minZ := pos.z - proximity
  let maxZ := pos.z + dim.w + proximity
  (dedupById (visitedBins g (binOf (pos.x - proximity)) (binOf (pos.x + dim.l + proximity))) []).any
    (fun item =>
      if maxY < item.position.y ∨ item.position.y + item.dimensions.height < minY then false
      else if pos.y < 0.1 ∧ item.cargoId ≠ cId then false
      else decide
        (minX < item.position.x + item.dimensions.length ∧ item.position.x < maxX ∧
         minY < item.position.y + item.dimensions.height ∧ item.position.y < maxY ∧
         minZ < item.position.z + item.dimensions.width ∧ item.position.z < maxZ))

/-- `packer.ts` : `isFlushWithNeighbors` — a lateral neighbour (within 1 cm)
whose top surface matches within 0.5 cm. -/
def isFlushWithNeighbors (g : Grid) (pos : Pos) (dim : Dim) : Bool :=
  let myTop := pos.y + dim.h
  let proximity : ℚ := 1.0
  (dedupById (visitedBins g (binOf (pos.x - proximity)) (binOf (pos.x + dim.l + proximity))) []).any
    (fun item =>
      let itemTop := item.position.y + item.dimensions.height
      if 0.5 < |itemTop - myTop| then false
      else
        let itemMinX := item.position.x
        let itemMaxX := item.position.x + item.dimensions.length
        let itemMinZ := item.position.z
        let itemMaxZ := item.position.z + item.dimensions.width
        let xOverlap := max 0 (min (pos.x + dim.l) itemMaxX - max pos.x itemMinX)
        let zOverlap := max 0 (min (pos.z + dim.w) itemMaxZ - max pos.z itemMinZ)
        let neighborX := 0.1 < zOverlap ∧
          (|pos.x - itemMaxX| < proximity ∨ |itemMinX - (pos.x + dim.l)| < proximity)
        let neighborZ := 0.1 < xOverlap ∧
          (|pos.z - itemMaxZ| < proximity ∨ |itemMinZ - (pos.z + dim.w)| < proximity)
        decide (neighborX ∨ neighborZ))

/-- The stackable-strategy score modifiers of the candidate loop. `zzSrc` is
the value whose zone is taken: the source uses the anchor z in the normal
branch but the slid `finalPos.z` in the rotated branch. -/
def stackableScore (ctx : PackCtx) (g : Grid) (anc : Pos) (finalPos : Pos) (dim : Dim)
    (zzSrc : ℚ) : ℚ :=
  let backHalf : ℚ := if anc.x < ctx.cDim.l * 0.5 then -5000 else 0
  let zZone := Rat.floor (zzSrc / Z_ZONE_SIZE)
  let terrace : ℚ := (zZone : ℚ) * anc.y * 50.0
  let currentTopY := anc.y + dim.h
  let gapRemaining := ctx.cDim.h - currentTopY
  let stability : ℚ :=
    if 0 < anc.y then
      let info := CheckSupportBelow finalPos.x finalPos.y finalPos.z dim.l dim.w g
      let myArea := dim.l * dim.w
      (if info.supportedArea < myArea * SUPPORT_THRESHOLD then (500000 : ℚ) else 0) +
      (if info.maxSupportBaseArea < myArea * 0.9 then (200000 : ℚ) else 0)
    else 0
  let platform : ℚ :=
    if ctx.targetPlatformLevels.any (fun lvl => decide (|lvl - currentTopY| < 5)) then -20000
    else 0
  let killZone : ℚ :=
    if 0 < ctx.minUnstackableH ∧ gapRemaining < ctx.minUnstackableH ∧ 5 < gapRemaining then 100000
    else 0
  backHalf + terrace + stability + platform + killZone

/-- The full score of one feasible (box, anchor, orientation) candidate:
base term, stackable or unstackable strategy modifier, adhesion and flush
bonuses, exactly as accumulated inline in `packSingleContainerAsync`. -/
def candidateScore (ctx : PackCtx) (g : Grid) (box : BoxToPack) (anc : Pos) (dim : Dim)
    (optZ zzSrc : ℚ) : ℚ :=
  let finalPos : Pos := ⟨anc.x, anc.y, optZ⟩
  let base := anc.x * 10000 + anc.y * 10 + optZ
  let strat :=
    if box.unstackable then
      let topGap := ctx.cDim.h - (anc.y + dim.h)
      if 40 < topGap then (1000000 : ℚ) else -500000
    else stackableScore ctx g anc finalPos dim zzSrc
  let adh : ℚ := if hasAdhesionNeighbor g finalPos dim box.cargoId then -ADHESION_BONUS else 0
  let flush : ℚ := if isFlushWithNeighbors g finalPos dim then -FLUSH_BONUS else 0
  base + strat + adh + flush

/-- A candidate move of the best-fit loop. -/
structure Move where
  boxIndex : ℕ
  anchorIndex : ℕ
  isRotated : Bool
  score : ℚ
  pos : Pos
deriving DecidableEq

/-- Oriented `{l, w, h}` dims of a box: identity or the L↔W swap. -/
def orientDim (box : BoxToPack) (rot : Bool) : Dim :=
  if rot then ⟨box.dim.w, box.dim.l, box.dim.h⟩ else box.dim

/-- Loop state of `packSingleContainerAsync`. -/
structure PackState where
  placed : List PlacedItem
  grid : Grid
  anchors : List Pos
  pool : List BoxToPack
  weight : ℚ

/-- The `typesChecked` deduplication: indices of the first box of each
distinct `cargoId` in the candidate pool, in pool order. -/
def firstIndices : List BoxToPack → ℕ → List String → List ℕ
  | [], _, _ => []
  | b :: rest, i, seenTypes =>
      if b.cargoId ∈ seenTypes then firstIndices rest (i + 1) seenTypes
      else i :: firstIndices rest (i + 1) (b.cargoId :: seenTypes)

/-- The candidate in one orientation at one anchor, if feasible. -/
def orientedCandidate (ctx : PackCtx) (g : Grid) (box : BoxToPack) (bIdx aIdx : ℕ)
    (anc : Pos) (rot : Bool) : List Move :=
  let dim := orientDim box rot
  if checkValidity anc dim ctx.cDim g then
    let optZ := optimizeZ ctx.cDim g anc dim
    let zzSrc := if rot then optZ else anc.z
    [⟨bIdx, aIdx, rot, candidateScore ctx g box anc dim optZ zzSrc, ⟨anc.x, anc.y, optZ⟩⟩]
  else []

/-- All feasible candidates of one pass, in the exact evaluation order of the
source loop: unique box types outermost, then anchors, then normal before
rotated orientation. -/
def allCandidates (ctx : PackCtx) (s : PackState) : List Move :=
  (firstIndices s.pool 0 []).flatMap (fun bIdx =>
    match s.pool.get? bIdx with
    | none => []
    | some box =>
        if ctx.spec.maxWeight < s.weight + box.wt then []
        else if !(canFitThroughDoor box ctx.spec.doorDimensions) then []
        else
          (s.anchors.enum).flatMap (fun p =>
            orientedCandidate ctx s.grid box bIdx p.1 p.2 false ++
            orientedCandidate ctx s.grid box bIdx p.1 p.2 true))

/-- The incremental strict-minimum selection over the candidates; `none` when
no candidate beats the initial `Number.MAX_SAFE_INTEGER` best score. -/
def findBest (ctx : PackCtx) (s : PackState) : Option Move :=
  (allCandidates ctx s).foldl
    (fun best c =>
      match best with
      | none => if c.score < maxSafeInteger then some c else none
      | some b0 => if c.score < b0.score then some c else best)
    none

/-- The anchor comparator `(a.x - b.x) || (a.y - b.y) || (a.z - b.z)` of the
source sort: lexicographic order on (x, y, z). -/
def anchorLe (a b : Pos) : Prop :=
  a.x < b.x ∨ (a.x = b.x ∧ (a.y < b.y ∨ (a.y = b.y ∧ a.z ≤ b.z)))

instance : DecidableRel anchorLe := fun a b => by
  unfold anchorLe; infer_instance

instance : IsTotal Pos anchorLe := by
  constructor
  intro a b
  unfold anchorLe
  rcases lt_trichotomy a.x b.x with h | h | h
  · exact Or.inl (Or.inl h)
  · rcases lt_trichotomy a.y b.y with h2 | h2 | h2
    · exact Or.inl (Or.inr ⟨h, Or.inl h2⟩)
    · rcases le_total a.z b.z with h3 | h3
      · exact Or.inl (Or.inr ⟨h, Or.inr ⟨h2, h3⟩⟩)
      · exact Or.inr (Or.inr ⟨h.symm, Or.inr ⟨h2.symm, h3⟩⟩)
    · exact Or.inr (Or.inr ⟨h.symm, Or.inl h2⟩)
  · exact Or.inr (Or.inl h)

instance : IsTrans Pos anchorLe := by
  constructor
  intro a b c hab hbc
  unfold anchorLe at *
  rcases hab with h1 | ⟨hx1, h1⟩
  · rcases hbc with h2 | ⟨hx2, h2⟩
    · exact Or.inl (h1.trans h2)
    · exact Or.inl (hx2 ▸ h1)
  · rcases hbc with h2 | ⟨hx2, h2⟩
    · exact Or.inl (hx1 ▸ h2)
    · refine Or.inr ⟨hx1.trans hx2, ?_⟩
      rcases h1 with h1 | ⟨hy1, h1⟩
      · rcases h2 with h2 | ⟨hy2, h2⟩
        · exact Or.inl (h1.trans h2)
        · exact Or.inl (hy2 ▸ h1)
      · rcases h2 with h2 | ⟨hy2, h2⟩
        · exact Or.inl (hy1 ▸ h2)
        · exact Or.inr ⟨hy1.trans hy2, h1.trans h2⟩

/-- The three anchors pushed when a placement commits: top, far-side and
far-front corners. -/
def anchorCorners (p : PlacedItem) : List Pos :=
  [⟨p.position.x, p.position.y + p.dimensions.height, p.position.z⟩,
   ⟨p.position.x, p.position.y, p.position.z + p.dimensions.width⟩,
   ⟨p.position.x + p.dimensions.length, p.position.y, p.position.z⟩]

/-- The usable-interior anchor filter applied after each commit. -/
def anchorUsable (ctx : PackCtx) (a : Pos) : Bool :=
  decide (a.x < ctx.cDim.l ∧ a.y < ctx.cDim.h - FORKLIFT_LIFT_MARGIN ∧ a.z < ctx.cDim.w)

/-- The `PlacedItem` record pushed by a commit (`packer.ts` lines 681-693). -/
def commitItem (ctx : PackCtx) (s : PackState) (mv : Move) (box : BoxToPack) : PlacedItem :=
  { id := ⟨ctx.containerIndex, s.placed.length⟩, cargoId := box.cargoId,
    position := mv.pos,
    dimensions :=
      if mv.isRotated then ⟨box.dim.w, box.dim.l, box.dim.h⟩
      else ⟨box.dim.l, box.dim.w, box.dim.h⟩,
    rotation := mv.isRotated,
    color := box.color, name := box.name, weight := box.wt,
    sequence := s.placed.length + 1, containerIndex := ctx.containerIndex,
    unstackable := box.unstackable }

/-- Commit the chosen move: append the placed item, update the grid, weight
and pool, push the three corner anchors (top, far-side, far-front), then sort
and filter the anchor list. The defensive `none` branch is unreachable (the
chosen index is always in range). -/
def commitMove (ctx : PackCtx) (s : PackState) (mv : Move) : PackState :=
  match s.pool.get? mv.boxIndex with
  | none => s
  | some box =>
      let item := commitItem ctx s mv box
      { placed := s.placed ++ [item],
        grid := addItemToGrid s.grid item,
        anchors := (List.insertionSort anchorLe
          (s.anchors ++ anchorCorners item)).filter (anchorUsable ctx),
        pool := s.pool.eraseIdx mv.boxIndex,
        weight := s.weight + box.wt }

/-- The `while (candidatePool.length > 0)` best-fit loop. Fuel equal to the
pool length is exact: every committed move consumes one pool box and the loop
otherwise breaks. -/
def packGo (ctx : PackCtx) : ℕ → PackState → PackState
  | 0, s => s
  | Nat.succ fuel, s =>
      match findBest ctx s with
      | none => s
      | some mv => packGo ctx fuel (commitMove ctx s mv)

/-- The final loop state of `packSingleContainerAsync`. -/
def packFinalState (containerSpec : ContainerSpec) (boxes : List BoxToPack)
    (containerIndex : ℕ) : PackState :=
  packGo (mkCtx containerSpec boxes containerIndex) boxes.length
    { placed := [], grid := emptyGrid, anchors := [⟨0, 0, 0⟩], pool := boxes, weight := 0 }

/-- `packer.ts` : `packSingleContainerAsync` — result record plus the residual
pool. -/
def packSingleContainer (containerSpec : ContainerSpec) (boxes : List BoxToPack)
    (containerIndex : ℕ) : PackingResult × List BoxToPack :=
  let st := packFinalState containerSpec boxes containerIndex
  let usedVolume := (st.placed.foldl
    (fun acc item =>
      acc + item.dimensions.length * item.dimensions.width * item.dimensions.height) 0) / 1000000
  ({ containerType := containerSpec.type,
     placedItems := st.placed,
     unplacedItems := [],
     totalVolume := containerSpec.volume,
     usedVolume := usedVolume,
     volumeUtilization := usedVolume / containerSpec.volume * 100,
     totalWeight := st.weight,
     weightUtilization := st.weight / containerSpec.maxWeight * 100,
     totalCargoCount := st.placed.length },
   st.pool)

/-! The shipment planner (`calculateShipmentAsync`). -/

/-- The pre-sort comparator of `calculateShipmentAsync`: stackables first,
then base area descending (epsilon 50), quantity descending (epsilon 10),
weight descending. -/
def boxCmp (a b : BoxToPack) : ℚ :=
  if a.unstackable ≠ b.unstackable then (if a.unstackable then 1 else -1)
  else
    let areaA := a.dim.w * a.dim.l
    let areaB := b.dim.w * b.dim.l
    if MIN_AREA_DIFF_FOR_SORT < |areaA - areaB| then areaB - areaA
    else if MIN_QTY_DIFF_FOR_SORT <
        |(b.originalItem.quantity : ℚ) - (a.originalItem.quantity : ℚ)| then
      (b.originalItem.quantity : ℚ) - (a.originalItem.quantity : ℚ)
    else b.wt - a.wt

/-- The JS stable `Array#sort` under `boxCmp`, as a stable insertion sort:
on comparator-consistent inputs every stable sort produces the same list. -/
def sortBoxes (l : List BoxToPack) : List BoxToPack :=
  List.insertionSort (fun a b => boxCmp a b ≤ 0) l

/-- The i-th unit box expanded from a `CargoItem`. -/
def mkUnitBox (item : CargoItem) (i : ℕ) : BoxToPack :=
  { id := item.id ++ "-" ++ toString i, cargoId := item.id,
    dim := ⟨item.dimensions.length, item.dimensions.width, item.dimensions.height⟩,
    wt := item.weight, color := item.color, name := item.name,
    originalItem := item, unstackable := item.unstackable }

/-- Expansion of each `CargoItem` into `quantity` unit boxes. -/
def expandCargo (cargoItems : List CargoItem) : List BoxToPack :=
  cargoItems.flatMap (fun item => (List.range item.quantity).map (mkUnitBox item))

/-- One step of the residual aggregation: bump an existing entry for this
cargo id or append a fresh one with quantity 1. -/
def aggStep (acc : List CargoItem) (b : BoxToPack) : List CargoItem :=
  if acc.any (fun c => c.id = b.cargoId) then
    acc.map (fun c => if c.id = b.cargoId then { c with quantity := c.quantity + 1 } else c)
  else acc ++ [{ b.originalItem with quantity := 1 }]

/-- The residual aggregation `Map<string, CargoItem>` keyed by cargo id: JS
maps preserve insertion order, an existing entry has its quantity bumped. -/
def aggregateUnplaced (boxes : List BoxToPack) : List CargoItem :=
  boxes.foldl aggStep []

/-- The 40GP/40HQ commit decision of the SMART_MIX branch (`packer.ts` lines
838-857): 40HQ iff it completes while 40GP does not, or packs strictly more,
or (equal counts) uses strictly more than 2 m³ more volume. -/
def useHQ (simGP simHQ : PackingResult × List BoxToPack) : Bool :=
  let countGP := simGP.1.placedItems.length
  let countHQ := simHQ.1.placedItems.length
  let hqRemains := simHQ.2.length
  let gpRemains := simGP.2.length
  let hqPacksMore := countGP < countHQ
  let hqCompletes := hqRemains = 0 ∧ 0 < gpRemains
  let hqVolumeBetter := simGP.1.usedVolume < simHQ.1.usedVolume
  decide (hqCompletes ∨ hqPacksMore) ||
    decide (countHQ = countGP ∧ hqVolumeBetter ∧ 2.0 < simHQ.1.usedVolume - simGP.1.usedVolume)

/-- The strategy selector: `SMART_MIX`, a single container type (uniform), or
an explicit container plan. -/
inductive Strategy where
  | smartMix : Strategy
  | uniform : ContainerSpec → Strategy
  | plan : List ContainerSpec → Strategy

/-- The fixed-plan loop: one container per spec, piping residuals, stopping
early when nothing remains. Returns the results and the final residual. -/
def runPlan : List ContainerSpec → List BoxToPack → ℕ → List PackingResult × List BoxToPack
  | [], boxes, _ => ([], boxes)
  | spec :: rest, boxes, count =>
      if boxes.isEmpty then ([], boxes)
      else
        let pr := packSingleContainer spec boxes (count + 1)
        let r := runPlan rest pr.2 (count + 1)
        (pr.1 :: r.1, r.2)

/-- The uniform loop: repeat one spec until the residual empties or a
container places nothing. Fuel equal to the box count is exact: every
continuing iteration places at least one box. -/
def runUniform (spec : ContainerSpec) : ℕ → List BoxToPack → ℕ → List PackingResult × List BoxToPack
  | 0, boxes, _ => ([], boxes)
  | Nat.succ fuel, boxes, count =>
      if boxes.isEmpty then ([], boxes)
      else
        let pr := packSingleContainer spec boxes (count + 1)
        if pr.1.placedItems.length = 0 then ([pr.1], pr.2)
        else
          let r := runUniform spec fuel pr.2 (count + 1)
          (pr.1 :: r.1, r.2)

/-- One SMART_MIX iteration's 40-foot commitment: force 40HQ when the
residual holds extra-tall cargo, else commit the better of the simulated
40GP / 40HQ runs per `useHQ`. -/
def smartChoice (c40 c40h : ContainerSpec) (boxes : List BoxToPack) (cc : ℕ) :
    PackingResult × List BoxToPack :=
  if boxes.any (fun b =>
      decide (c40.dimensions.height - OPERATION_BUFFER - FORKLIFT_LIFT_MARGIN < b.dim.h)) then
    packSingleContainer c40h boxes cc
  else
    let simGP := packSingleContainer c40 boxes cc
    let simHQ := packSingleContainer c40h boxes cc
    if useHQ simGP simHQ then simHQ else simGP

/-- The SMART_MIX loop: try 20GP outright, else force 40HQ for extra-tall
residuals, else commit the better of simulated 40GP/40HQ; stop when a
container places nothing. -/
def runSmart (c20 c40 c40h : ContainerSpec) :
    ℕ → List BoxToPack → ℕ → List PackingResult × List BoxToPack
  | 0, boxes, _ => ([], boxes)
  | Nat.succ fuel, boxes, count =>
      if boxes.isEmpty then ([], boxes)
      else
        let cc := count + 1
        let test20 := packSingleContainer c20 boxes cc
        if test20.2.isEmpty then ([test20.1], [])
        else
          let chosen := smartChoice c40 c40h boxes cc
          if chosen.1.placedItems.length = 0 then ([chosen.1], chosen.2)
          else
            let r := runSmart c20 c40 c40h fuel chosen.2 cc
            (chosen.1 :: r.1, r.2)

/-- Write the aggregated residual onto the last result
(`shipmentResults[shipmentResults.length - 1].unplacedItems = ...`). -/
def setLastUnplaced : List PackingResult → List CargoItem → List PackingResult
  | [], _ => []
  | [r], u => [{ r with unplacedItems := u }]
  | r :: r2 :: rest, u => r :: setLastUnplaced (r2 :: rest) u

/-- `calculateShipmentAsync` before its final filter: expand and sort the
cargo, run the selected planner loop, then attach the residual (if any) to
the last result (if any). -/
def calcShipmentCore (strategy : Strategy) (cargoItems : List CargoItem) : List PackingResult :=
  let boxes := sortBoxes (expandCargo cargoItems)
  let run :=
    match strategy with
    | Strategy.plan specs => runPlan specs boxes 0
    | Strategy.uniform spec => runUniform spec boxes.length boxes 0
    | Strategy.smartMix => runSmart c20GP c40GP c40HQ boxes.length boxes 0
  if run.2.isEmpty ∨ run.1.isEmpty then run.1
  else setLastUnplaced run.1 (aggregateUnplaced run.2)

/-- `packer.ts` : `calculateShipmentAsync` — the returned shipment, with the
final `filter(r => r.placedItems.length > 0)`. -/
def calculateShipment (strategy : Strategy) (cargoItems : List CargoItem) : List PackingResult :=
  (calcShipmentCore strategy cargoItems).filter (fun r => decide (0 < r.placedItems.length))

/-! Claim-level notions: the spec's invariants, stated over placed items. -/

/-- Strict six-inequality AABB intersection (open boxes): shared faces do not
intersect. The inline collision test of `checkValidity` is exactly
`aabbIntersects` of the candidate box against the placed item. -/
def aabbIntersects (p q : PlacedItem) : Prop :=
  p.position.x < q.position.x + q.dimensions.length ∧
  q.position.x < p.position.x + p.dimensions.length ∧
  p.position.y < q.position.y + q.dimensions.height ∧
  q.position.y < p.position.y + p.dimensions.height ∧
  p.position.z < q.position.z + q.dimensions.width ∧
  q.position.z < p.position.z + p.dimensions.width

instance (p q : PlacedItem) : Decidable (aabbIntersects p q) := by
  unfold aabbIntersects; infer_instance

/-- Top surface height of a placed item. -/
def supTop (p : PlacedItem) : ℚ := p.position.y + p.dimensions.height

/-- Footprint overlap area of supporter `p` under placed item `q`. -/
def overlapArea (q p : PlacedItem) : ℚ :=
  calculateSupportArea q.position.x q.position.z q.dimensions.length q.dimensions.width
    p.position.x p.position.z p.dimensions.length p.dimensions.width

/-- `p` counts as a supporter of `q`: top at `q`'s base within 0.1 cm and a
positive footprint overlap. -/
def isSupporter (q p : PlacedItem) : Prop :=
  |supTop p - q.position.y| < 0.1 ∧ 0 < overlapArea q p

instance (q p : PlacedItem) : Decidable (isSupporter q p) := by
  unfold isSupporter; infer_instance

/-- The support area `p` contributes to `q` (0 unless `p` is a supporter). -/
def supportContrib (q p : PlacedItem) : ℚ :=
  if isSupporter q p then overlapArea q p else 0

/-- Invariant 3 of the spec for one placement `q` over the placements
committed before it: aggregate supporter area at least 70 % of the base and
no unstackable supporter. -/
def SupportedBy (prev : List PlacedItem) (q : PlacedItem) : Prop :=
  0.70 * (q.dimensions.length * q.dimensions.width) ≤ (prev.map (supportContrib q)).sum ∧
  ∀ p ∈ prev, isSupporter q p → p.unstackable = false

/-- Every stacked placement is supported by its predecessors. -/
def SupportOkAt (placed : List PlacedItem) : Prop :=
  ∀ j (hj : j < placed.length), 0 < (placed.get ⟨j, hj⟩).position.y →
    SupportedBy (placed.take j) (placed.get ⟨j, hj⟩)

/-- Invariant 2 of the spec for one placement, over the usable interior
`cDim` (= interior minus `OPERATION_BUFFER`), plus positivity of its oriented
dimensions. -/
def InBoundsP (cDim : Dim) (p : PlacedItem) : Prop :=
  0 ≤ p.position.x ∧ p.position.x + p.dimensions.length ≤ cDim.l ∧
  0 ≤ p.position.y ∧ p.position.y + p.dimensions.height ≤ cDim.h - FORKLIFT_LIFT_MARGIN ∧
  0 ≤ p.position.z ∧ p.position.z + p.dimensions.width ≤ cDim.w ∧
  0 < p.dimensions.length ∧ 0 < p.dimensions.width ∧ 0 < p.dimensions.height

/-- An anchor strictly inside a committed AABB. -/
def strictlyInside (a : Pos) (p : PlacedItem) : Prop :=
  p.position.x < a.x ∧ a.x < p.position.x + p.dimensions.length ∧
  p.position.y < a.y ∧ a.y < p.position.y + p.dimensions.height ∧
  p.position.z < a.z ∧ a.z < p.position.z + p.dimensions.width

instance (a : Pos) (p : PlacedItem) : Decidable (strictlyInside a p) := by
  unfold strictlyInside; infer_instance

/-- An anchor within the closed AABB of a committed placement. -/
def inClosedAABB (a : Pos) (p : PlacedItem) : Prop :=
  p.position.x ≤ a.x ∧ a.x ≤ p.position.x + p.dimensions.length ∧
  p.position.y ≤ a.y ∧ a.y ≤ p.position.y + p.dimensions.height ∧
  p.position.z ≤ a.z ∧ a.z ≤ p.position.z + p.dimensions.width

instance (a : Pos) (p : PlacedItem) : Decidable (inClosedAABB a p) := by
  unfold inClosedAABB; infer_instance

/-! Multiset counting by cargo id, for the conservation claims. -/

def countPlaced (placed : List PlacedItem) (cid : String) : ℕ :=
  (placed.filter (fun p => p.cargoId = cid)).length

def countBoxes (boxes : List BoxToPack) (cid : String) : ℕ :=
  (boxes.filter (fun b => b.cargoId = cid)).length

/-- Boxes of a given CargoSpec id in a cargo list, expanded by quantity. -/
def countCargo : List CargoItem → String → ℕ
  | [], _ => 0
  | c :: t, cid => (if c.id = cid then c.quantity else 0) + countCargo t cid

def shipmentPlaced (results : List PackingResult) (cid : String) : ℕ :=
  (results.map (fun r => countPlaced r.placedItems cid)).sum

def shipmentResidual (results : List PackingResult) (cid : String) : ℕ :=
  (results.map (fun r => countCargo r.unplacedItems cid)).sum

/-! Basic lemmas: the z-slide, candidate selection, grid membership. -/

theorem optimizeZGo_valid (cDim : Dim) (g : Grid) (p : Pos) (d : Dim) :
    ∀ (fuel : ℕ) (z : ℚ), checkValidity ⟨p.x, p.y, z⟩ d cDim g = true →
      checkValidity ⟨p.x, p.y, optimizeZGo cDim g p d fuel z⟩ d cDim g = true := by
  intro fuel
  induction fuel with
  | zero => intro z hz; simpa [optimizeZGo] using hz
  | succ n ih =>
      intro z hz
      rw [optimizeZGo]
      by_cases h1 : 0 ≤ z - 1
      · simp only [h1, if_true]
        by_cases h2 : checkValidity ⟨p.x, p.y, z - 1⟩ d cDim g = true
        · simp only [h2, if_true]
          exact ih (z - 1) h2
        · simp only [eq_false_of_ne_true h2, if_false]
          exact hz
      · simp only [h1, if_false]
        exact hz

theorem optimizeZGo_nonneg (cDim : Dim) (g : Grid) (p : Pos) (d : Dim) :
    ∀ (fuel : ℕ) (z : ℚ), 0 ≤ z → 0 ≤ optimizeZGo cDim g p d fuel z := by
  intro fuel
  induction fuel with
  | zero => intro z hz; simpa [optimizeZGo] using hz
  | succ n ih =>
      intro z hz
      rw [optimizeZGo]
      by_cases h1 : 0 ≤ z - 1
      · simp only [h1, if_true]
        by_cases h2 : checkValidity ⟨p.x, p.y, z - 1⟩ d cDim g = true
        · simp only [h2, if_true]; exact ih (z - 1) h1
        · simp only [eq_false_of_ne_true h2, if_false]; exact hz
      · simp only [h1, if_false]; exact hz

theorem optimizeZ_valid (cDim : Dim) (g : Grid) (p : Pos) (d : Dim)
    (h : checkValidity p d cDim g = true) :
    checkValidity ⟨p.x, p.y, optimizeZ cDim g p d⟩ d cDim g = true := by
  unfold optimizeZ
  by_cases hy : (0.1 : ℚ) < p.y
  · simpa [hy] using h
  · simp only [hy, if_false]
    exact optimizeZGo_valid cDim g p d _ p.z (by simpa using h)

theorem optimizeZ_nonneg (cDim : Dim) (g : Grid) (p : Pos) (d : Dim) (h : 0 ≤ p.z) :
    0 ≤ optimizeZ cDim g p d := by
  unfold optimizeZ
  by_cases hy : (0.1 : ℚ) < p.y
  · simpa [hy] using h
  · simp only [hy, if_false]
    exact optimizeZGo_nonneg cDim g p d _ p.z h

/-- What the selection loop guarantees about a returned move. -/
def MoveOk (ctx : PackCtx) (s : PackState) (mv : Move) : Prop :=
  ∃ box anc, s.pool.get? mv.boxIndex = some box ∧ anc ∈ s.anchors ∧
    s.weight + box.wt ≤ ctx.spec.maxWeight ∧
    canFitThroughDoor box ctx.spec.doorDimensions = true ∧
    checkValidity anc (orientDim box mv.isRotated) ctx.cDim s.grid = true ∧
    mv.pos = ⟨anc.x, anc.y, optimizeZ ctx.cDim s.grid anc (orientDim box mv.isRotated)⟩

theorem foldl_best_mem (l : List Move) :
    ∀ (init : Option Move) (mv : Move),
      l.foldl (fun best c =>
        match best with
        | none => if c.score < maxSafeInteger then some c else none
        | some b0 => if c.score < b0.score then some c else best) init = some mv →
      mv ∈ l ∨ init = some mv := by
  induction l with
  | nil => intro init mv h; exact Or.inr h
  | cons a t ih =>
      intro init mv h
      simp only [List.foldl_cons] at h
      rcases ih _ mv h with hmem | hinit
      · exact Or.inl (List.mem_cons_of_mem _ hmem)
      · match init with
        | none =>
            by_cases ha : a.score < maxSafeInteger
            · simp only [ha, if_true] at hinit
              obtain rfl : a = mv := Option.some.inj hinit
              exact Or.inl (List.mem_cons_self a t)
            · simp only [ha, if_false] at hinit
              exact absurd hinit (by simp)
        | some b0 =>
            by_cases ha : a.score < b0.score
            · simp only [ha, if_true] at hinit
              obtain rfl : a = mv := Option.some.inj hinit
              exact Or.inl (List.mem_cons_self a t)
            · simp only [ha, if_false] at hinit
              exact Or.inr hinit

theorem mem_orientedCandidate (ctx : PackCtx) (g : Grid) (box : BoxToPack) (bIdx aIdx : ℕ)
    (anc : Pos) (rot : Bool) (mv : Move)
    (h : mv ∈ orientedCandidate ctx g box bIdx aIdx anc rot) :
    checkValidity anc (orientDim box rot) ctx.cDim g = true ∧
    mv.boxIndex = bIdx ∧ mv.isRotated = rot ∧
    mv.pos = ⟨anc.x, anc.y, optimizeZ ctx.cDim g anc (orientDim box rot)⟩ := by
  unfold orientedCandidate at h
  by_cases hv : checkValidity anc (orientDim box rot) ctx.cDim g = true
  · simp only [hv, if_true, List.mem_singleton] at h
    subst h
    exact ⟨hv, rfl, rfl, rfl⟩
  · simp [eq_false_of_ne_true hv] at h

theorem findBest_ok (ctx : PackCtx) (s : PackState) (mv : Move)
    (h : findBest ctx s = some mv) : MoveOk ctx s mv := by
  unfold findBest at h
  rcases foldl_best_mem _ none mv h with hmem | hbad
  · unfold allCandidates at hmem
    rcases List.mem_flatMap.1 hmem with ⟨bIdx, _hb, hmv⟩
    rcases hget : s.pool.get? bIdx with _ | box
    · rw [hget] at hmv; simp at hmv
    · rw [hget] at hmv
      by_cases hw : ctx.spec.maxWeight < s.weight + box.wt
      · simp only [hw, if_true] at hmv; simp at hmv
      · simp only [hw, if_false] at hmv
        by_cases hd : canFitThroughDoor box ctx.spec.doorDimensions = true
        · simp only [hd, Bool.not_true, Bool.false_eq_true, if_false] at hmv
          rcases List.mem_flatMap.1 hmv with ⟨pr, hpr, hmv2⟩
          have hanc : pr.2 ∈ s.anchors :=
            List.getElem?_mem (List.mem_enum_iff_getElem?.1 hpr)
          rcases List.mem_append.1 hmv2 with hside | hside
          · obtain ⟨hv, hb, hrot, hpos⟩ :=
              mem_orientedCandidate ctx s.grid box bIdx pr.1 pr.2 false mv hside
            exact ⟨box, pr.2, hb ▸ hget, hanc, not_lt.1 hw, hd, hrot ▸ hv, hrot ▸ hpos⟩
          · obtain ⟨hv, hb, hrot, hpos⟩ :=
              mem_orientedCandidate ctx s.grid box bIdx pr.1 pr.2 true mv hside
            exact ⟨box, pr.2, hb ▸ hget, hanc, not_lt.1 hw, hd, hrot ▸ hv, hrot ▸ hpos⟩
        · rw [Bool.not_eq_true] at hd
          simp only [hd, Bool.not_false, if_true] at hmv
          simp at hmv
  · simp at hbad

/-! Grid and deduplication lemmas. -/

theorem binOf_mono {q r : ℚ} (h : q ≤ r) : binOf q ≤ binOf r := by
  unfold binOf
  have hg : (0 : ℚ) < GRID_SIZE := by norm_num [GRID_SIZE]
  have h2 : q / GRID_SIZE ≤ r / GRID_SIZE := (div_le_div_iff_of_pos_right hg).2 h
  exact Int.toNat_le_toNat (by
    have h3 : (⌊q / GRID_SIZE⌋ : ℤ) ≤ ⌊r / GRID_SIZE⌋ := Int.floor_le_floor h2
    simpa using h3)

theorem mem_visitedBins {g : Grid} {lo hi : ℕ} {it : PlacedItem} :
    it ∈ visitedBins g lo hi ↔ ∃ b, lo ≤ b ∧ b ≤ hi ∧ it ∈ g.buckets b := by
  unfold visitedBins
  rw [List.mem_flatten]
  constructor
  · rintro ⟨l, hl, hit⟩
    rcases List.mem_map.1 hl with ⟨b, hb, rfl⟩
    rcases List.mem_range'_1.1 hb with ⟨h1, h2⟩
    exact ⟨b, h1, by omega, hit⟩
  · rintro ⟨b, h1, h2, hit⟩
    exact ⟨g.buckets b, List.mem_map.2 ⟨b, List.mem_range'_1.2 ⟨h1, by omega⟩, rfl⟩, hit⟩

/-- Same-id elements of `l` coincide (true of every grid query because all
bucket entries come from the placed list, whose ids are distinct). -/
def IdInj (l : List PlacedItem) : Prop :=
  ∀ a ∈ l, ∀ b ∈ l, a.id = b.id → a = b

theorem mem_dedupById {l : List PlacedItem} (hinj : IdInj l) :
    ∀ (seen : List ItemId) (it : PlacedItem),
      it ∈ dedupById l seen ↔ (it ∈ l ∧ it.id ∉ seen) := by
  induction l with
  | nil => intro seen it; simp [dedupById]
  | cons a t ih =>
      have hinj' : IdInj t := fun x hx y hy =>
        hinj x (List.mem_cons_of_mem a hx) y (List.mem_cons_of_mem a hy)
      intro seen it
      rw [dedupById]
      by_cases hmem : a.id ∈ seen
      · simp only [hmem, if_true]
        rw [ih hinj' seen it]
        constructor
        · rintro ⟨h1, h2⟩
          exact ⟨List.mem_cons_of_mem a h1, h2⟩
        · rintro ⟨h1, h2⟩
          rcases List.mem_cons.1 h1 with rfl | h1
          · exact absurd hmem h2
          · exact ⟨h1, h2⟩
      · simp only [hmem, if_false, List.mem_cons]
        rw [ih hinj' (a.id :: seen) it]
        constructor
        · rintro (rfl | ⟨h1, h2⟩)
          · exact ⟨Or.inl rfl, hmem⟩
          · exact ⟨Or.inr h1, fun hc => h2 (List.mem_cons_of_mem _ hc)⟩
        · rintro ⟨rfl | h1, h2⟩
          · exact Or.inl rfl
          · by_cases hid : it.id = a.id
            · have : it = a := hinj it (List.mem_cons_of_mem a h1) a (List.mem_cons_self a t) hid
              exact Or.inl this
            · exact Or.inr ⟨h1, by simp [hid, h2]⟩

theorem dedupById_idsNodup (l : List PlacedItem) :
    ∀ seen : List ItemId, ((dedupById l seen).map (fun p => p.id)).Nodup ∧
      ∀ it ∈ dedupById l seen, it.id ∉ seen := by
  induction l with
  | nil => intro seen; simp [dedupById]
  | cons a t ih =>
      intro seen
      rw [dedupById]
      by_cases hmem : a.id ∈ seen
      · simpa [hmem] using ih seen
      · simp only [hmem, if_false, List.map_cons, List.nodup_cons]
        obtain ⟨h1, h2⟩ := ih (a.id :: seen)
        refine ⟨⟨?_, h1⟩, ?_⟩
        · intro hc
          rcases List.mem_map.1 hc with ⟨x, hx, hxid⟩
          exact h2 x hx (by simp [hxid])
        · intro it hit
          rcases List.mem_cons.1 hit with rfl | hit
          · exact hmem
          · intro hc
            exact h2 it hit (List.mem_cons_of_mem _ hc)

theorem dedupById_nodup {l : List PlacedItem} (seen : List ItemId) :
    (dedupById l seen).Nodup :=
  ((dedupById_idsNodup l seen).1).of_map _

/-! Consequences of `checkValidity pos dim c g = true`. -/

theorem checkValidity_le1 {pos dim c g} (h : checkValidity pos dim c g = true) :
    pos.x + dim.l ≤ c.l := by
  by_contra hc
  rw [not_le] at hc
  unfold checkValidity at h
  rw [if_pos hc] at h
  simp at h

theorem checkValidity_le2 {pos dim c g} (h : checkValidity pos dim c g = true) :
    pos.y + dim.h ≤ c.h - FORKLIFT_LIFT_MARGIN := by
  by_contra hc
  rw [not_le] at hc
  unfold checkValidity at h
  by_cases h1 : c.l < pos.x + dim.l
  · rw [if_pos h1] at h; simp at h
  · rw [if_neg h1, if_pos hc] at h; simp at h

theorem checkValidity_le3 {pos dim c g} (h : checkValidity pos dim c g = true) :
    pos.z + dim.w ≤ c.w := by
  by_contra hc
  rw [not_le] at hc
  unfold checkValidity at h
  by_cases h1 : c.l < pos.x + dim.l
  · rw [if_pos h1] at h; simp at h
  by_cases h2 : c.h - FORKLIFT_LIFT_MARGIN < pos.y + dim.h
  · rw [if_neg h1, if_pos h2] at h; simp at h
  rw [if_neg h1, if_neg h2, if_pos hc] at h; simp at h

theorem checkValidity_noCollision {pos dim c g} (h : checkValidity pos dim c g = true) :
    ∀ it ∈ visitedBins g (binOf pos.x) (binOf (pos.x + dim.l)),
      ¬(pos.x < it.position.x + it.dimensions.length ∧
        it.position.x < pos.x + dim.l ∧
        pos.y < it.position.y + it.dimensions.height ∧
        it.position.y < pos.y + dim.h ∧
        pos.z < it.position.z + it.dimensions.width ∧
        it.position.z < pos.z + dim.w) := by
  intro it hit hP
  simp only [checkValidity] at h
  by_cases h1 : c.l < pos.x + dim.l
  · rw [if_pos h1] at h; simp at h
  rw [if_neg h1] at h
  by_cases h2 : c.h - FORKLIFT_LIFT_MARGIN < pos.y + dim.h
  · rw [if_pos h2] at h; simp at h
  rw [if_neg h2] at h
  by_cases h3 : c.w < pos.z + dim.w
  · rw [if_pos h3] at h; simp at h
  rw [if_neg h3] at h
  by_cases hcol : (visitedBins g (binOf pos.x) (binOf (pos.x + dim.l))).any (fun item =>
      decide (pos.x < item.position.x + item.dimensions.length ∧
              item.position.x < pos.x + dim.l ∧
              pos.y < item.position.y + item.dimensions.height ∧
              item.position.y < pos.y + dim.h ∧
              pos.z < item.position.z + item.dimensions.width ∧
              item.position.z < pos.z + dim.w)) = true
  · rw [if_pos hcol] at h; simp at h
  exact hcol (List.any_eq_true.2 ⟨it, hit, decide_eq_true hP⟩)

theorem checkValidity_support {pos dim c g} (h : checkValidity pos dim c g = true)
    (hy : 0 < pos.y) :
    (supportScan (dedupById (visitedBins g (binOf pos.x) (binOf (pos.x + dim.l))) []) pos dim).ok
      = true ∧
    ¬((supportScan (dedupById (visitedBins g (binOf pos.x) (binOf (pos.x + dim.l))) []) pos
        dim).total / (dim.l * dim.w) < 0.70) := by
  simp only [checkValidity] at h
  by_cases h1 : c.l < pos.x + dim.l
  · rw [if_pos h1] at h; simp at h
  rw [if_neg h1] at h
  by_cases h2 : c.h - FORKLIFT_LIFT_MARGIN < pos.y + dim.h
  · rw [if_pos h2] at h; simp at h
  rw [if_neg h2] at h
  by_cases h3 : c.w < pos.z + dim.w
  · rw [if_pos h3] at h; simp at h
  rw [if_neg h3] at h
  by_cases hcol : (visitedBins g (binOf pos.x) (binOf (pos.x + dim.l))).any (fun item =>
      decide (pos.x < item.position.x + item.dimensions.length ∧
              item.position.x < pos.x + dim.l ∧
              pos.y < item.position.y + item.dimensions.height ∧
              item.position.y < pos.y + dim.h ∧
              pos.z < item.position.z + item.dimensions.width ∧
              item.position.z < pos.z + dim.w)) = true
  · rw [if_pos hcol] at h; simp at h
  rw [if_neg hcol] at h
  by_cases hfk : checkForkliftAccess pos dim c g = true
  · rw [if_neg (by simp [hfk])] at h
    rw [if_pos hy] at h
    rcases hsc : supportScan (dedupById (visitedBins g (binOf pos.x) (binOf (pos.x + dim.l))) [])
      pos dim with ⟨ok, total⟩
    rw [hsc] at h
    simp only [] at h
    by_cases hok : ok = true
    · subst hok
      rw [if_pos rfl] at h
      exact ⟨rfl, of_decide_eq_true h⟩
    · rw [if_neg (by simpa using hok)] at h
      simp at h
  · rw [if_pos (by simp [Bool.not_eq_true] at hfk; simp [hfk])] at h
    simp at h

def areaAt (pos : Pos) (dim : Dim) (it : PlacedItem) : ℚ :=
  calculateSupportArea pos.x pos.z dim.l dim.w
    it.position.x it.position.z it.dimensions.length it.dimensions.width

def supporterAt (pos : Pos) (dim : Dim) (it : PlacedItem) : Prop :=
  |it.position.y + it.dimensions.height - pos.y| < 0.1 ∧ 0 < areaAt pos dim it

instance (pos dim it) : Decidable (supporterAt pos dim it) := by
  unfold supporterAt; infer_instance

def contribAt (pos : Pos) (dim : Dim) (it : PlacedItem) : ℚ :=
  if supporterAt pos dim it then areaAt pos dim it else 0

theorem foldl_supportStep_false (pos : Pos) (dim : Dim) :
    ∀ (L : List PlacedItem) (t : ℚ), L.foldl (supportStep pos dim) ⟨false, t⟩ = ⟨false, t⟩ := by
  intro L
  induction L with
  | nil => intro t; rfl
  | cons a L ih =>
      intro t
      have hstep : supportStep pos dim ⟨false, t⟩ a = ⟨false, t⟩ := by
        simp [supportStep]
      rw [List.foldl_cons, hstep, ih]

theorem foldl_supportStep_ok (pos : Pos) (dim : Dim) :
    ∀ (L : List PlacedItem) (t : ℚ),
      (L.foldl (supportStep pos dim) ⟨true, t⟩).ok = true ↔
        ∀ it ∈ L, ¬(supporterAt pos dim it ∧ it.unstackable = true) := by
  intro L
  induction L with
  | nil => intro t; simp
  | cons a L ih =>
      intro t
      rw [List.foldl_cons]
      by_cases hA : |a.position.y + a.dimensions.height - pos.y| < 0.1
      · by_cases hB : 0 < areaAt pos dim a
        · by_cases hC : a.unstackable = true
          · have hstep : supportStep pos dim ⟨true, t⟩ a = ⟨false, t⟩ := by
              simp [supportStep, hA, areaAt] at hB ⊢
              simp [hB, hC]
            rw [hstep, foldl_supportStep_false]
            simp only [List.mem_cons]
            constructor
            · intro h; simp at h
            · intro h
              exact absurd (h a (Or.inl rfl)) (by simp [supporterAt, hA, hB, hC])
          · have hstep : supportStep pos dim ⟨true, t⟩ a =
                ⟨true, t + areaAt pos dim a⟩ := by
              simp [supportStep, hA, areaAt] at hB ⊢
              simp [hB, hC]
            rw [hstep, ih]
            constructor
            · intro h it hit
              rcases List.mem_cons.1 hit with rfl | hit
              · simp [hC]
              · exact h it hit
            · intro h it hit
              exact h it (List.mem_cons_of_mem a hit)
        · have hstep : supportStep pos dim ⟨true, t⟩ a = ⟨true, t⟩ := by
            simp [supportStep, hA, areaAt] at hB ⊢
            simp [hB]
          rw [hstep, ih]
          constructor
          · intro h it hit
            rcases List.mem_cons.1 hit with rfl | hit
            · simp [supporterAt, hB]
            · exact h it hit
          · intro h it hit
            exact h it (List.mem_cons_of_mem a hit)
      · have hstep : supportStep pos dim ⟨true, t⟩ a = ⟨true, t⟩ := by
          simp [supportStep, hA]
        rw [hstep, ih]
        constructor
        · intro h it hit
          rcases List.mem_cons.1 hit with rfl | hit
          · simp [supporterAt, hA]
          · exact h it hit
        · intro h it hit
          exact h it (List.mem_cons_of_mem a hit)
theorem foldl_supportStep_total (pos : Pos) (dim : Dim) :
    ∀ (L : List PlacedItem) (t : ℚ),
      (∀ it ∈ L, ¬(supporterAt pos dim it ∧ it.unstackable = true)) →
      (L.foldl (supportStep pos dim) ⟨true, t⟩).total =
        t + (L.map (contribAt pos dim)).sum := by
  intro L
  induction L with
  | nil => intro t _; simp
  | cons a L ih =>
      intro t hno
      rw [List.foldl_cons]
      have hnoL : ∀ it ∈ L, ¬(supporterAt pos dim it ∧ it.unstackable = true) :=
        fun it hit => hno it (List.mem_cons_of_mem a hit)
      by_cases hS : supporterAt pos dim a
      · have hC : a.unstackable = false := by
          rcases Bool.eq_false_or_eq_true a.unstackable with hb | hb
          · exact absurd ⟨hS, hb⟩ (hno a (List.mem_cons_self a L))
          · exact hb
        have hstep : supportStep pos dim ⟨true, t⟩ a = ⟨true, t + areaAt pos dim a⟩ := by
          obtain ⟨hA, hB⟩ := hS
          simp [supportStep, hA, areaAt] at hB ⊢
          simp [hB, hC]
        rw [hstep, ih _ hnoL, List.map_cons, List.sum_cons]
        rw [contribAt, if_pos hS]
        ring
      · have hstep : supportStep pos dim ⟨true, t⟩ a = ⟨true, t⟩ := by
          unfold supporterAt at hS
          push_neg at hS
          by_cases hA : |a.position.y + a.dimensions.height - pos.y| < 0.1
          · have hB : ¬(0 < areaAt pos dim a) := fun hb => absurd (hS hA) (not_le.2 hb)
            simp [supportStep, hA, areaAt] at hB ⊢
            simp [hB]
          · simp [supportStep, hA]
        rw [hstep, ih _ hnoL, List.map_cons, List.sum_cons]
        rw [contribAt, if_neg hS]
        ring
def binLo (it : PlacedItem) : ℕ := binOf it.position.x

def binHi (it : PlacedItem) : ℕ := binOf (it.position.x + it.dimensions.length)

/-- The id discipline of a container run: placed ids are `c{cIdx}-b{k}` for
`k = 0, 1, ...` in commit order. -/
def IdsOk (cIdx : ℕ) (placed : List PlacedItem) : Prop :=
  placed.map (fun p => p.id) = (List.range placed.length).map (fun k => ItemId.mk cIdx k)

theorem IdsOk.idsNodup {cIdx placed} (h : IdsOk cIdx placed) :
    (placed.map (fun p => p.id)).Nodup := by
  rw [h]
  exact (List.nodup_range _).map (fun a b hab => by cases hab; rfl)

theorem IdsOk.nodup {cIdx placed} (h : IdsOk cIdx placed) : placed.Nodup :=
  h.idsNodup.of_map _

theorem IdsOk.idInj {cIdx placed} (h : IdsOk cIdx placed) (L : List PlacedItem)
    (hsub : ∀ x ∈ L, x ∈ placed) : IdInj L := by
  intro a ha b hb hab
  exact List.inj_on_of_nodup_map h.idsNodup (hsub a ha) (hsub b hb) hab

/-- The grid is exactly the placed list bucketed by x-extent. -/
def GridMem (placed : List PlacedItem) (g : Grid) : Prop :=
  ∀ b it, it ∈ g.buckets b ↔ (it ∈ placed ∧ binLo it ≤ b ∧ b ≤ binHi it)

theorem mem_visited_of_gridMem {placed g} (hg : GridMem placed g) {lo hi : ℕ} {it : PlacedItem} :
    it ∈ visitedBins g lo hi ↔
      (it ∈ placed ∧ ∃ b, lo ≤ b ∧ b ≤ hi ∧ binLo it ≤ b ∧ b ≤ binHi it) := by
  rw [mem_visitedBins]
  constructor
  · rintro ⟨b, h1, h2, hit⟩
    obtain ⟨hp, h3, h4⟩ := (hg b it).1 hit
    exact ⟨hp, b, h1, h2, h3, h4⟩
  · rintro ⟨hp, b, h1, h2, h3, h4⟩
    exact ⟨b, h1, h2, (hg b it).2 ⟨hp, h3, h4⟩⟩

theorem dedup_visited_perm {placed g cIdx} (hg : GridMem placed g) (hids : IdsOk cIdx placed)
    (lo hi : ℕ) (hlohi : lo ≤ hi) (hwide : ∀ it ∈ placed, binLo it ≤ binHi it) :
    List.Perm (dedupById (visitedBins g lo hi) [])
      (placed.filter (fun it => decide (lo ≤ binHi it ∧ binLo it ≤ hi))) := by
  have hsub : ∀ x ∈ visitedBins g lo hi, x ∈ placed := by
    intro x hx
    exact ((mem_visited_of_gridMem hg).1 hx).1
  have hinj : IdInj (visitedBins g lo hi) := hids.idInj _ hsub
  rw [List.perm_ext_iff_of_nodup (dedupById_nodup []) (hids.nodup.filter _)]
  intro a
  rw [mem_dedupById hinj, List.mem_filter, mem_visited_of_gridMem hg]
  simp only [List.not_mem_nil, not_false_iff, and_true, decide_eq_true_eq]
  constructor
  · rintro ⟨hp, b, h1, h2, h3, h4⟩
    exact ⟨hp, by omega, by omega⟩
  · rintro ⟨hp, h1, h2⟩
    refine ⟨hp, max lo (binLo a), ?_, ?_, ?_, ?_⟩ <;>
      · have := hwide a hp
        omega

theorem sum_map_filter_eq {α} (f : α → ℚ) (p : α → Bool) (l : List α)
    (h : ∀ x ∈ l, p x = false → f x = 0) :
    ((l.filter p).map f).sum = (l.map f).sum := by
  induction l with
  | nil => simp
  | cons a t ih =>
      have ht : ∀ x ∈ t, p x = false → f x = 0 :=
        fun x hx => h x (List.mem_cons_of_mem a hx)
      by_cases hp : p a = true
      · rw [List.filter_cons_of_pos hp, List.map_cons, List.sum_cons, List.map_cons,
          List.sum_cons, ih ht]
      · rw [List.filter_cons_of_neg (by simpa using hp), List.map_cons, List.sum_cons,
          h a (List.mem_cons_self a t) (by simpa using hp), ih ht]
        ring
theorem pos_area_strict_x {pos dim it} (h : 0 < areaAt pos dim it) :
    pos.x < it.position.x + it.dimensions.length ∧ it.position.x < pos.x + dim.l := by
  unfold areaAt calculateSupportArea at h
  simp only [] at h
  rcases mul_pos_iff.1 h with ⟨hx, _⟩ | ⟨hx, _⟩
  · have hE : 0 < min (pos.x + dim.l) (it.position.x + it.dimensions.length) -
        max pos.x it.position.x := by
      rcases lt_max_iff.1 hx with hbad | hE
      · exact absurd hbad (lt_irrefl 0)
      · exact hE
    have h1 : max pos.x it.position.x <
        min (pos.x + dim.l) (it.position.x + it.dimensions.length) := by linarith
    constructor
    · calc pos.x ≤ max pos.x it.position.x := le_max_left _ _
        _ < min (pos.x + dim.l) (it.position.x + it.dimensions.length) := h1
        _ ≤ it.position.x + it.dimensions.length := min_le_right _ _
    · calc it.position.x ≤ max pos.x it.position.x := le_max_right _ _
        _ < min (pos.x + dim.l) (it.position.x + it.dimensions.length) := h1
        _ ≤ pos.x + dim.l := min_le_left _ _
  · exact absurd hx (not_lt.2 (le_max_left 0 _))

theorem supporter_bins {pos dim it} (h : 0 < areaAt pos dim it) :
    binOf pos.x ≤ binHi it ∧ binLo it ≤ binOf (pos.x + dim.l) := by
  obtain ⟨h1, h2⟩ := pos_area_strict_x h
  exact ⟨binOf_mono h1.le, binOf_mono h2.le⟩

theorem checkValidity_noOverlap {placed : List PlacedItem} {g pos dim c}
    (hg : GridMem placed g)
    (hv : checkValidity pos dim c g = true)
    (hl : 0 ≤ dim.l) (hwide : ∀ it ∈ placed, binLo it ≤ binHi it) :
    ∀ it ∈ placed,
      ¬(pos.x < it.position.x + it.dimensions.length ∧
        it.position.x < pos.x + dim.l ∧
        pos.y < it.position.y + it.dimensions.height ∧
        it.position.y < pos.y + dim.h ∧
        pos.z < it.position.z + it.dimensions.width ∧
        it.position.z < pos.z + dim.w) := by
  intro it hp hP
  have hb : it ∈ visitedBins g (binOf pos.x) (binOf (pos.x + dim.l)) := by
    rw [mem_visited_of_gridMem hg]
    have m1 : binOf pos.x ≤ binOf (pos.x + dim.l) := binOf_mono (by linarith)
    have m2 : binLo it ≤ binOf (pos.x + dim.l) := binOf_mono hP.2.1.le
    have m3 : binOf pos.x ≤ binHi it := binOf_mono hP.1.le
    have m4 : binLo it ≤ binHi it := hwide it hp
    exact ⟨hp, max (binOf pos.x) (binLo it), by omega, by omega, by omega, by omega⟩
  exact checkValidity_noCollision hv it hb hP

theorem checkValidity_supportSum {placed : List PlacedItem} {g cIdx pos dim c}
    (hg : GridMem placed g) (hids : IdsOk cIdx placed)
    (hwide : ∀ it ∈ placed, binLo it ≤ binHi it)
    (hv : checkValidity pos dim c g = true) (hy : 0 < pos.y)
    (hl : 0 < dim.l) (hw : 0 < dim.w) :
    0.70 * (dim.l * dim.w) ≤ (placed.map (contribAt pos dim)).sum ∧
    ∀ p ∈ placed, supporterAt pos dim p → p.unstackable = false := by
  obtain ⟨hok, htot⟩ := checkValidity_support hv hy
  have hperm := dedup_visited_perm hg hids (binOf pos.x) (binOf (pos.x + dim.l))
    (binOf_mono (by linarith)) hwide
  have hnone : ∀ it ∈ dedupById (visitedBins g (binOf pos.x) (binOf (pos.x + dim.l))) [],
      ¬(supporterAt pos dim it ∧ it.unstackable = true) := by
    have := (foldl_supportStep_ok pos dim
      (dedupById (visitedBins g (binOf pos.x) (binOf (pos.x + dim.l))) []) 0).1
    exact this hok
  have hsum : (supportScan (dedupById (visitedBins g (binOf pos.x) (binOf (pos.x + dim.l))) [])
      pos dim).total =
      ((dedupById (visitedBins g (binOf pos.x) (binOf (pos.x + dim.l))) []).map
        (contribAt pos dim)).sum := by
    rw [supportScan, foldl_supportStep_total pos dim _ 0 hnone]
    ring
  have hsum2 : ((dedupById (visitedBins g (binOf pos.x) (binOf (pos.x + dim.l))) []).map
      (contribAt pos dim)).sum = (placed.map (contribAt pos dim)).sum := by
    rw [List.Perm.sum_eq (hperm.map (contribAt pos dim))]
    apply sum_map_filter_eq
    intro x hx hpx
    rw [contribAt, if_neg]
    intro hsupp
    obtain ⟨b1, b2⟩ := supporter_bins hsupp.2
    simp only [decide_eq_false_iff_not, not_and, not_le] at hpx
    omega
  constructor
  · have hA : 0 < dim.l * dim.w := mul_pos hl hw
    rw [not_lt] at htot
    have h70 : 0.70 * (dim.l * dim.w) ≤
        (supportScan (dedupById (visitedBins g (binOf pos.x) (binOf (pos.x + dim.l))) [])
          pos dim).total := by
      have := (le_div_iff₀ hA).1 htot
      linarith
    rw [hsum, hsum2] at h70
    exact h70
  · intro p hp hsupp
    obtain ⟨b1, b2⟩ := supporter_bins hsupp.2
    have hmem : p ∈ dedupById (visitedBins g (binOf pos.x) (binOf (pos.x + dim.l))) [] := by
      rw [hperm.mem_iff, List.mem_filter]
      exact ⟨hp, by simp; omega⟩
    have := hnone p hmem
    rcases Bool.eq_false_or_eq_true p.unstackable with hb | hb
    · exact absurd ⟨hsupp, hb⟩ this
    · exact hb
/-! The master loop invariant of one container run. -/

theorem aabbIntersects_comm {p q : PlacedItem} : aabbIntersects p q ↔ aabbIntersects q p := by
  unfold aabbIntersects
  tauto

/-- Positive x-extent of every placed item gives monotone bin ranges. -/
theorem binLo_le_binHi {it : PlacedItem} (h : 0 ≤ it.dimensions.length) :
    binLo it ≤ binHi it :=
  binOf_mono (by linarith)

structure Inv (ctx : PackCtx) (pool0 : List BoxToPack) (s : PackState) : Prop where
  gridMem : GridMem s.placed s.grid
  gridNodup : ∀ b, (s.grid.buckets b).Nodup
  ids : IdsOk ctx.containerIndex s.placed
  bounds : ∀ p ∈ s.placed, InBoundsP ctx.cDim p
  noOverlap : s.placed.Pairwise (fun p q => ¬ aabbIntersects p q)
  support : SupportOkAt s.placed
  weightEq : s.weight = (s.placed.map (fun p => p.weight)).sum
  weightLe : s.weight ≤ ctx.spec.maxWeight
  poolPos : ∀ b ∈ s.pool, 0 < b.dim.l ∧ 0 < b.dim.w ∧ 0 < b.dim.h
  anchorsNN : ∀ a ∈ s.anchors, 0 ≤ a.x ∧ 0 ≤ a.y ∧ 0 ≤ a.z
  anchorsProv : ∀ a ∈ s.anchors, a = ⟨0, 0, 0⟩ ∨ ∃ p ∈ s.placed, a ∈ anchorCorners p
  anchorsSorted : List.Sorted anchorLe s.anchors
  counts : ∀ cid, countPlaced s.placed cid + countBoxes s.pool cid = countBoxes pool0 cid

theorem inv_init (ctx : PackCtx) (pool0 : List BoxToPack)
    (hpool : ∀ b ∈ pool0, 0 < b.dim.l ∧ 0 < b.dim.w ∧ 0 < b.dim.h)
    (hw : 0 ≤ ctx.spec.maxWeight) :
    Inv ctx pool0 ⟨[], emptyGrid, [⟨0, 0, 0⟩], pool0, 0⟩ := by
  constructor
  · intro b it; simp [emptyGrid]
  · intro b; simp [emptyGrid]
  · simp [IdsOk]
  · intro p hp; simp at hp
  · simp
  · intro j hj; simp at hj
  · simp
  · exact hw
  · exact hpool
  · intro a ha; rcases List.mem_singleton.1 ha with rfl; norm_num
  · intro a ha; rcases List.mem_singleton.1 ha with rfl; exact Or.inl rfl
  · simp
  · intro cid; simp [countPlaced]

theorem commitMove_eq (ctx : PackCtx) (s : PackState) (mv : Move) (box : BoxToPack)
    (hget : s.pool.get? mv.boxIndex = some box) :
    commitMove ctx s mv =
      { placed := s.placed ++ [commitItem ctx s mv box],
        grid := addItemToGrid s.grid (commitItem ctx s mv box),
        anchors := (List.insertionSort anchorLe
          (s.anchors ++ anchorCorners (commitItem ctx s mv box))).filter (anchorUsable ctx),
        pool := s.pool.eraseIdx mv.boxIndex,
        weight := s.weight + box.wt } := by
  unfold commitMove
  rw [hget]

theorem commitItem_dimensions (ctx : PackCtx) (s : PackState) (mv : Move) (box : BoxToPack) :
    (commitItem ctx s mv box).dimensions =
      ⟨(orientDim box mv.isRotated).l, (orientDim box mv.isRotated).w,
       (orientDim box mv.isRotated).h⟩ := by
  rcases hrot : mv.isRotated with _ | _ <;> simp [commitItem, orientDim, hrot]

theorem countPlaced_append (l : List PlacedItem) (p : PlacedItem) (cid : String) :
    countPlaced (l ++ [p]) cid =
      countPlaced l cid + (if p.cargoId = cid then 1 else 0) := by
  unfold countPlaced
  rw [List.filter_append]
  by_cases h : p.cargoId = cid
  · simp [h]
  · simp [h]

theorem countBoxes_eraseIdx (pool : List BoxToPack) (i : ℕ) (box : BoxToPack)
    (hget : pool.get? i = some box) (cid : String) :
    countBoxes (pool.eraseIdx i) cid + (if box.cargoId = cid then 1 else 0) =
      countBoxes pool cid := by
  obtain ⟨hlt, hgetEq⟩ := List.getElem?_eq_some_iff.1 (by simpa using hget)
  have hdecomp : pool = pool.take i ++ pool[i] :: pool.drop (i + 1) := by
    conv_lhs => rw [← List.take_append_drop i pool]
    rw [List.drop_eq_getElem_cons hlt]
  rw [List.eraseIdx_eq_take_drop_succ]
  unfold countBoxes
  conv_rhs => rw [hdecomp]
  rw [List.filter_append, List.filter_append, List.filter_cons, hgetEq]
  by_cases h : box.cargoId = cid
  · simp [h]; omega
  · simp [h]
theorem gridMem_add {placed : List PlacedItem} {g : Grid} (hg : GridMem placed g)
    (item : PlacedItem) : GridMem (placed ++ [item]) (addItemToGrid g item) := by
  intro b it
  unfold addItemToGrid
  simp only []
  by_cases hb : binOf item.position.x ≤ b ∧ b ≤ binOf (item.position.x + item.dimensions.length)
  · rw [if_pos hb]
    rw [List.mem_append, List.mem_singleton, List.mem_append, List.mem_singleton]
    constructor
    · rintro (hin | rfl)
      · obtain ⟨hp, h1, h2⟩ := (hg b it).1 hin
        exact ⟨Or.inl hp, h1, h2⟩
      · exact ⟨Or.inr rfl, hb.1, hb.2⟩
    · rintro ⟨hp | rfl, h1, h2⟩
      · exact Or.inl ((hg b it).2 ⟨hp, h1, h2⟩)
      · exact Or.inr rfl
  · rw [if_neg hb]
    rw [List.mem_append, List.mem_singleton]
    constructor
    · intro hin
      obtain ⟨hp, h1, h2⟩ := (hg b it).1 hin
      exact ⟨Or.inl hp, h1, h2⟩
    · rintro ⟨hp | rfl, h1, h2⟩
      · exact (hg b it).2 ⟨hp, h1, h2⟩
      · exact absurd ⟨h1, h2⟩ hb

theorem IdsOk.fresh {cIdx : ℕ} {placed : List PlacedItem} (h : IdsOk cIdx placed) :
    ∀ p ∈ placed, p.id ≠ ItemId.mk cIdx placed.length := by
  intro p hp hid
  have hmem : p.id ∈ placed.map (fun q => q.id) := List.mem_map_of_mem _ hp
  rw [h] at hmem
  rcases List.mem_map.1 hmem with ⟨k, hk, hkid⟩
  rw [List.mem_range] at hk
  rw [hid] at hkid
  cases hkid
  omega

theorem IdsOk.append {cIdx : ℕ} {placed : List PlacedItem} (h : IdsOk cIdx placed)
    (item : PlacedItem) (hid : item.id = ItemId.mk cIdx placed.length) :
    IdsOk cIdx (placed ++ [item]) := by
  unfold IdsOk at h ⊢
  rw [List.map_append, h, List.length_append]
  simp [List.range_succ, hid]

theorem gridNodup_add {placed : List PlacedItem} {g : Grid} {cIdx : ℕ}
    (hg : GridMem placed g) (hnd : ∀ b, (g.buckets b).Nodup)
    (hids : IdsOk cIdx placed) (item : PlacedItem)
    (hid : item.id = ItemId.mk cIdx placed.length) :
    ∀ b, ((addItemToGrid g item).buckets b).Nodup := by
  intro b
  unfold addItemToGrid
  simp only []
  by_cases hb : binOf item.position.x ≤ b ∧ b ≤ binOf (item.position.x + item.dimensions.length)
  · rw [if_pos hb]
    refine List.Nodup.append (hnd b) (List.nodup_singleton item) ?_
    intro x hx hx2
    rcases List.mem_singleton.1 hx2 with rfl
    have hp : x ∈ placed := ((hg b x).1 hx).1
    exact hids.fresh x hp hid
  · rw [if_neg hb]
    exact hnd b

theorem supportContrib_eq {q : PlacedItem} {pos : Pos} {dim : Dim}
    (hq : q.position = pos) (hl : q.dimensions.length = dim.l)
    (hw : q.dimensions.width = dim.w) (p : PlacedItem) :
    supportContrib q p = contribAt pos dim p ∧ (isSupporter q p ↔ supporterAt pos dim p) := by
  have harea : overlapArea q p = areaAt pos dim p := by
    unfold overlapArea areaAt
    rw [hq, hl, hw]
  have hsupp : isSupporter q p ↔ supporterAt pos dim p := by
    unfold isSupporter supporterAt supTop
    rw [hq, harea]
  refine ⟨?_, hsupp⟩
  unfold supportContrib contribAt
  by_cases hs : isSupporter q p
  · rw [if_pos hs, if_pos (hsupp.1 hs), harea]
  · rw [if_neg hs, if_neg (fun hc => hs (hsupp.2 hc))]
theorem inv_step (ctx : PackCtx) (pool0 : List BoxToPack) (s : PackState) (mv : Move)
    (hInv : Inv ctx pool0 s) (hmv : findBest ctx s = some mv) :
    Inv ctx pool0 (commitMove ctx s mv) := by
  obtain ⟨box, anc, hget, hanc, hwgate, hdoor, hvalid, hpos⟩ := findBest_ok ctx s mv hmv
  have hboxmem : box ∈ s.pool := List.getElem?_mem (by simpa using hget)
  have hdpos : 0 < (orientDim box mv.isRotated).l ∧ 0 < (orientDim box mv.isRotated).w ∧
      0 < (orientDim box mv.isRotated).h := by
    obtain ⟨h1, h2, h3⟩ := hInv.poolPos box hboxmem
    rcases hrot : mv.isRotated with _ | _ <;> simp [orientDim, hrot] <;> exact ⟨by linarith, by linarith, by linarith⟩
  have hnn : 0 ≤ anc.x ∧ 0 ≤ anc.y ∧ 0 ≤ anc.z := hInv.anchorsNN anc hanc
  have hvfin : checkValidity mv.pos (orientDim box mv.isRotated) ctx.cDim s.grid = true := by
    rw [hpos]; exact optimizeZ_valid ctx.cDim s.grid anc _ hvalid
  have hposx : mv.pos.x = anc.x := by rw [hpos]
  have hposy : mv.pos.y = anc.y := by rw [hpos]
  have hposz0 : 0 ≤ mv.pos.z := by rw [hpos]; exact optimizeZ_nonneg _ _ _ _ hnn.2.2
  have hitemdims : (commitItem ctx s mv box).dimensions =
      ⟨(orientDim box mv.isRotated).l, (orientDim box mv.isRotated).w,
       (orientDim box mv.isRotated).h⟩ := commitItem_dimensions ctx s mv box
  have hitempos : (commitItem ctx s mv box).position = mv.pos := rfl
  have hwide : ∀ it ∈ s.placed, binLo it ≤ binHi it := by
    intro it hit
    obtain ⟨_, _, _, _, _, _, hlen, _, _⟩ := hInv.bounds it hit
    exact binLo_le_binHi (le_of_lt hlen)
  rw [commitMove_eq ctx s mv box hget]
  constructor
  -- gridMem
  · exact gridMem_add hInv.gridMem _
  -- gridNodup
  · exact gridNodup_add hInv.gridMem hInv.gridNodup hInv.ids _ rfl
  -- ids
  · exact hInv.ids.append _ rfl
  -- bounds
  · intro p hp
    rcases List.mem_append.1 hp with hp | hp
    · exact hInv.bounds p hp
    · rcases List.mem_singleton.1 hp with rfl
      have h1 := checkValidity_le1 hvfin
      have h2 := checkValidity_le2 hvfin
      have h3 := checkValidity_le3 hvfin
      refine ⟨?_, ?_, ?_, ?_, ?_, ?_, ?_, ?_, ?_⟩ <;>
        simp only [hitemdims, hitempos, hposx, hposy] <;>
        first
          | exact hnn.1
          | exact hnn.2.1
          | exact hposz0
          | (simp only [hposx, hposy] at h1 h2 h3 ⊢; first | linarith [h1] | linarith [h2] | linarith [h3])
          | exact hdpos.1
          | exact hdpos.2.1
          | exact hdpos.2.2
  · exact List.pairwise_append.2 ⟨hInv.noOverlap, by simp, by
      intro p hp q hq
      rcases List.mem_singleton.1 hq with rfl
      intro hover
      have hno := checkValidity_noOverlap hInv.gridMem hvfin (le_of_lt hdpos.1) hwide p hp
      apply hno
      have := aabbIntersects_comm.1 hover
      unfold aabbIntersects at this
      rw [hitempos] at this
      simp only [hitemdims] at this
      exact this⟩
  -- support
  · intro j hj hy
    rw [List.length_append, List.length_singleton] at hj
    by_cases hlt : j < s.placed.length
    · have hget1 : (s.placed ++ [commitItem ctx s mv box]).get ⟨j, by simpa using hj⟩ =
          s.placed.get ⟨j, hlt⟩ := by
        simp only [List.get_eq_getElem]
        exact List.getElem_append_left hlt
      rw [hget1] at hy ⊢
      have htake : (s.placed ++ [commitItem ctx s mv box]).take j = s.placed.take j := by
        rw [List.take_append_eq_append_take]
        have : j - s.placed.length = 0 := by omega
        simp [this]
      rw [htake]
      exact hInv.support j hlt hy
    · have hj' : j = s.placed.length := by omega
      subst hj'
      have hget2 : (s.placed ++ [commitItem ctx s mv box]).get ⟨s.placed.length, by simp⟩ =
          commitItem ctx s mv box := by
        simp
      rw [hget2] at hy ⊢
      have htake : (s.placed ++ [commitItem ctx s mv box]).take s.placed.length = s.placed :=
        List.take_left _ _
      rw [htake]
      have hy' : 0 < mv.pos.y := by rw [← hitempos]; exact hy
      obtain ⟨hsum, hnou⟩ := checkValidity_supportSum hInv.gridMem hInv.ids hwide hvfin hy'
        hdpos.1 hdpos.2.1
      constructor
      · have hmapeq : s.placed.map (supportContrib (commitItem ctx s mv box)) =
            s.placed.map (contribAt mv.pos (orientDim box mv.isRotated)) := by
          apply List.map_congr_left
          intro p hp
          exact (supportContrib_eq hitempos (by rw [hitemdims]) (by rw [hitemdims]) p).1
        rw [hmapeq]
        calc 0.70 * ((commitItem ctx s mv box).dimensions.length *
              (commitItem ctx s mv box).dimensions.width)
            = 0.70 * ((orientDim box mv.isRotated).l * (orientDim box mv.isRotated).w) := by
              rw [hitemdims]
          _ ≤ _ := hsum
      · intro p hp hsupp
        apply hnou p hp
        exact (supportContrib_eq hitempos (by rw [hitemdims]) (by rw [hitemdims]) p).2.1 hsupp
  -- weightEq
  · rw [List.map_append, List.sum_append, ← hInv.weightEq]
    simp [commitItem]
  -- weightLe
  · exact hwgate
  -- poolPos
  · intro b hb
    exact hInv.poolPos b (List.eraseIdx_subset _ _ hb)
  -- anchorsNN
  · intro a ha
    have ha2 := (List.mem_insertionSort _).1 (List.mem_filter.1 ha).1
    rcases List.mem_append.1 ha2 with ha3 | ha3
    · exact hInv.anchorsNN a ha3
    · unfold anchorCorners at ha3
      rw [hitempos] at ha3
      simp only [hitemdims, List.mem_cons, List.not_mem_nil, or_false] at ha3
      rcases ha3 with rfl | rfl | rfl
      · exact ⟨by simp [hposx, hnn.1], by simp; nlinarith [hnn.2.1, hdpos.2.2, hposy], by simp [hposz0]⟩
      · exact ⟨by simp [hposx, hnn.1], by simp [hposy, hnn.2.1], by simp; nlinarith [hposz0, hdpos.2.1]⟩
      · exact ⟨by simp; nlinarith [hnn.1, hdpos.1, hposx], by simp [hposy, hnn.2.1], by simp [hposz0]⟩
  -- anchorsProv
  · intro a ha
    have ha2 := (List.mem_insertionSort _).1 (List.mem_filter.1 ha).1
    rcases List.mem_append.1 ha2 with ha3 | ha3
    · rcases hInv.anchorsProv a ha3 with h | ⟨p, hp, hc⟩
      · exact Or.inl h
      · exact Or.inr ⟨p, List.mem_append_left _ hp, hc⟩
    · exact Or.inr ⟨commitItem ctx s mv box, List.mem_append_right _ (List.mem_singleton_self _), ha3⟩
  -- anchorsSorted
  · exact (List.sorted_insertionSort anchorLe _).filter _
  -- counts
  · intro cid
    show countPlaced (s.placed ++ [commitItem ctx s mv box]) cid +
        countBoxes (s.pool.eraseIdx mv.boxIndex) cid = countBoxes pool0 cid
    rw [countPlaced_append]
    have herase := countBoxes_eraseIdx s.pool mv.boxIndex box hget cid
    have hcnt := hInv.counts cid
    have hcargo : (commitItem ctx s mv box).cargoId = box.cargoId := rfl
    rw [hcargo]
    omega
theorem packGo_inv (ctx : PackCtx) (pool0 : List BoxToPack) :
    ∀ (fuel : ℕ) (s : PackState), Inv ctx pool0 s → Inv ctx pool0 (packGo ctx fuel s) := by
  intro fuel
  induction fuel with
  | zero => intro s h; exact h
  | succ n ih =>
      intro s h
      rw [packGo]
      rcases hfb : findBest ctx s with _ | mv
      · exact h
      · exact ih _ (inv_step ctx pool0 s mv h hfb)

/-- The master invariant at the end of one container run. -/
theorem packFinalState_inv (spec : ContainerSpec) (boxes : List BoxToPack) (cIdx : ℕ)
    (hpool : ∀ b ∈ boxes, 0 < b.dim.l ∧ 0 < b.dim.w ∧ 0 < b.dim.h)
    (hw : 0 ≤ spec.maxWeight) :
    Inv (mkCtx spec boxes cIdx) boxes (packFinalState spec boxes cIdx) := by
  unfold packFinalState
  exact packGo_inv _ _ _ _ (inv_init _ _ hpool hw)
/-! Hypothesis-free conservation of boxes, lengths and the weight gate. -/

theorem commitMove_counts (ctx : PackCtx) (s : PackState) (mv : Move)
    (hok : MoveOk ctx s mv) (cid : String) :
    countPlaced (commitMove ctx s mv).placed cid + countBoxes (commitMove ctx s mv).pool cid =
      countPlaced s.placed cid + countBoxes s.pool cid := by
  obtain ⟨box, anc, hget, -, -, -, -, -⟩ := hok
  rw [commitMove_eq ctx s mv box hget]
  show countPlaced (s.placed ++ [commitItem ctx s mv box]) cid +
      countBoxes (s.pool.eraseIdx mv.boxIndex) cid = _
  rw [countPlaced_append]
  have herase := countBoxes_eraseIdx s.pool mv.boxIndex box hget cid
  have hcargo : (commitItem ctx s mv box).cargoId = box.cargoId := rfl
  rw [hcargo]
  omega

theorem commitMove_lengths (ctx : PackCtx) (s : PackState) (mv : Move)
    (hok : MoveOk ctx s mv) :
    (commitMove ctx s mv).placed.length + (commitMove ctx s mv).pool.length =
      s.placed.length + s.pool.length := by
  obtain ⟨box, anc, hget, -, -, -, -, -⟩ := hok
  obtain ⟨hlt, -⟩ := List.getElem?_eq_some_iff.1 (by simpa using hget)
  rw [commitMove_eq ctx s mv box hget]
  show (s.placed ++ [commitItem ctx s mv box]).length + (s.pool.eraseIdx mv.boxIndex).length = _
  rw [List.length_append, List.length_eraseIdx_of_lt hlt, List.length_singleton]
  omega

theorem packGo_counts (ctx : PackCtx) :
    ∀ (fuel : ℕ) (s : PackState) (cid : String),
      countPlaced (packGo ctx fuel s).placed cid + countBoxes (packGo ctx fuel s).pool cid =
        countPlaced s.placed cid + countBoxes s.pool cid := by
  intro fuel
  induction fuel with
  | zero => intro s cid; rfl
  | succ n ih =>
      intro s cid
      rw [packGo]
      rcases hfb : findBest ctx s with _ | mv
      · rfl
      · rw [ih (commitMove ctx s mv) cid,
          commitMove_counts ctx s mv (findBest_ok ctx s mv hfb) cid]

theorem packGo_lengths (ctx : PackCtx) :
    ∀ (fuel : ℕ) (s : PackState),
      (packGo ctx fuel s).placed.length + (packGo ctx fuel s).pool.length =
        s.placed.length + s.pool.length := by
  intro fuel
  induction fuel with
  | zero => intro s; rfl
  | succ n ih =>
      intro s
      rw [packGo]
      rcases hfb : findBest ctx s with _ | mv
      · rfl
      · rw [ih (commitMove ctx s mv),
          commitMove_lengths ctx s mv (findBest_ok ctx s mv hfb)]

theorem packSingleContainer_counts (spec : ContainerSpec) (boxes : List BoxToPack)
    (cIdx : ℕ) (cid : String) :
    countPlaced (packSingleContainer spec boxes cIdx).1.placedItems cid +
      countBoxes (packSingleContainer spec boxes cIdx).2 cid = countBoxes boxes cid := by
  show countPlaced (packFinalState spec boxes cIdx).placed cid +
      countBoxes (packFinalState spec boxes cIdx).pool cid = countBoxes boxes cid
  unfold packFinalState
  rw [packGo_counts]
  simp [countPlaced]

theorem packSingleContainer_lengths (spec : ContainerSpec) (boxes : List BoxToPack)
    (cIdx : ℕ) :
    (packSingleContainer spec boxes cIdx).1.placedItems.length +
      (packSingleContainer spec boxes cIdx).2.length = boxes.length := by
  show (packFinalState spec boxes cIdx).placed.length +
      (packFinalState spec boxes cIdx).pool.length = boxes.length
  unfold packFinalState
  rw [packGo_lengths]
  simp

/-- The weight ledger: loop weight equals the sum of placed weights and never
exceeds the cap (without any assumption on the pool). -/
theorem packGo_weight (ctx : PackCtx) :
    ∀ (fuel : ℕ) (s : PackState),
      s.weight = (s.placed.map (fun p => p.weight)).sum →
      s.weight ≤ ctx.spec.maxWeight →
      (packGo ctx fuel s).weight =
          ((packGo ctx fuel s).placed.map (fun p => p.weight)).sum ∧
        (packGo ctx fuel s).weight ≤ ctx.spec.maxWeight := by
  intro fuel
  induction fuel with
  | zero => intro s h1 h2; exact ⟨h1, h2⟩
  | succ n ih =>
      intro s h1 h2
      rw [packGo]
      rcases hfb : findBest ctx s with _ | mv
      · exact ⟨h1, h2⟩
      · obtain ⟨box, anc, hget, -, hwgate, -, -, -⟩ := findBest_ok ctx s mv hfb
        apply ih
        · rw [commitMove_eq ctx s mv box hget]
          show s.weight + box.wt = ((s.placed ++ [commitItem ctx s mv box]).map _).sum
          rw [List.map_append, List.sum_append, ← h1]
          simp [commitItem]
        · rw [commitMove_eq ctx s mv box hget]
          exact hwgate
theorem packSingleContainer_weight (spec : ContainerSpec) (boxes : List BoxToPack)
    (cIdx : ℕ) (hw : 0 ≤ spec.maxWeight) :
    ((packSingleContainer spec boxes cIdx).1.placedItems.map (fun p => p.weight)).sum ≤
      spec.maxWeight := by
  have h := packGo_weight (mkCtx spec boxes cIdx) boxes.length
    ⟨[], emptyGrid, [⟨0, 0, 0⟩], boxes, 0⟩ (by simp) (by simpa using hw)
  show ((packFinalState spec boxes cIdx).placed.map (fun p => p.weight)).sum ≤ _
  unfold packFinalState
  rw [← h.1]
  exact h.2

/-! Conservation through expansion, sorting and the planner loops. -/

theorem countBoxes_append (l1 l2 : List BoxToPack) (cid : String) :
    countBoxes (l1 ++ l2) cid = countBoxes l1 cid + countBoxes l2 cid := by
  unfold countBoxes
  rw [List.filter_append, List.length_append]

theorem countBoxes_block (item : CargoItem) (cid : String) :
    countBoxes ((List.range item.quantity).map (mkUnitBox item)) cid =
      if item.id = cid then item.quantity else 0 := by
  unfold countBoxes
  by_cases h : item.id = cid
  · rw [if_pos h, List.filter_eq_self.2 (by
      intro x hx
      rcases List.mem_map.1 hx with ⟨i, _, rfl⟩
      simp [mkUnitBox, h])]
    rw [List.length_map, List.length_range]
  · rw [if_neg h, List.filter_eq_nil_iff.2 (by
      intro x hx
      rcases List.mem_map.1 hx with ⟨i, _, rfl⟩
      simp [mkUnitBox, h])]
    rfl

theorem countBoxes_expandCargo (cargo : List CargoItem) (cid : String) :
    countBoxes (expandCargo cargo) cid = countCargo cargo cid := by
  induction cargo with
  | nil => rfl
  | cons item rest ih =>
      unfold expandCargo at ih ⊢
      rw [List.flatMap_cons, countBoxes_append, countBoxes_block, ih]
      rw [countCargo]

theorem countBoxes_sortBoxes (l : List BoxToPack) (cid : String) :
    countBoxes (sortBoxes l) cid = countBoxes l cid := by
  unfold countBoxes sortBoxes
  exact ((List.perm_insertionSort _ l).filter _).length_eq
theorem countCargo_append (l1 l2 : List CargoItem) (cid : String) :
    countCargo (l1 ++ l2) cid = countCargo l1 cid + countCargo l2 cid := by
  induction l1 with
  | nil => simp [countCargo]
  | cons a t ih => rw [List.cons_append, countCargo, countCargo, ih]; omega

theorem countCargo_bumpMap (acc : List CargoItem) (bid cid : String) :
    countCargo (acc.map (fun c => if c.id = bid then { c with quantity := c.quantity + 1 }
        else c)) cid =
      countCargo acc cid +
        (if bid = cid then (acc.filter (fun c => decide (c.id = bid))).length else 0) := by
  induction acc with
  | nil => simp [countCargo]
  | cons a t ih =>
      rw [List.map_cons, countCargo, countCargo, List.filter_cons, ih]
      by_cases ha : a.id = bid
      · rw [if_pos ha]
        have h1 : ({ a with quantity := a.quantity + 1 } : CargoItem).id = a.id := rfl
        have h2 : ({ a with quantity := a.quantity + 1 } : CargoItem).quantity =
          a.quantity + 1 := rfl
        rw [h1, h2, if_pos (by simp [ha] : decide (a.id = bid) = true)]
        by_cases hbc : bid = cid
        · rw [if_pos hbc, if_pos hbc, if_pos (ha.trans hbc), if_pos (ha.trans hbc),
            List.length_cons]
          omega
        · have hac : ¬(a.id = cid) := fun hc => hbc (ha.symm.trans hc)
          rw [if_neg hbc, if_neg hbc, if_neg hac, if_neg hac]
          omega
      · rw [if_neg ha, if_neg (by simp [ha] : ¬(decide (a.id = bid) = true))]
        omega
theorem countBoxes_cons (b : BoxToPack) (t : List BoxToPack) (cid : String) :
    countBoxes (b :: t) cid = (if b.cargoId = cid then 1 else 0) + countBoxes t cid := by
  unfold countBoxes
  rw [List.filter_cons]
  by_cases h : b.cargoId = cid
  · simp [h]; omega
  · simp [h]

theorem filter_id_length_le_one {acc : List CargoItem} (bid : String)
    (hnd : (acc.map (fun c => c.id)).Nodup) :
    (acc.filter (fun c => decide (c.id = bid))).length ≤ 1 := by
  induction acc with
  | nil => simp
  | cons a t ih =>
      rw [List.map_cons, List.nodup_cons] at hnd
      rw [List.filter_cons]
      by_cases ha : a.id = bid
      · rw [if_pos (by simp [ha])]
        have ht : t.filter (fun c => decide (c.id = bid)) = [] := by
          apply List.filter_eq_nil_iff.2
          intro c hc hcb
          apply hnd.1
          rw [ha]
          rw [decide_eq_true_eq] at hcb
          rw [← hcb]
          exact List.mem_map_of_mem _ hc
        rw [List.length_cons, ht]
        simp
      · rw [if_neg (by simp [ha])]
        exact ih hnd.2

theorem aggStep_count (acc : List CargoItem) (b : BoxToPack) (cid : String)
    (hnd : (acc.map (fun c => c.id)).Nodup) (hwfb : b.originalItem.id = b.cargoId) :
    countCargo (aggStep acc b) cid =
      countCargo acc cid + (if b.cargoId = cid then 1 else 0) := by
  unfold aggStep
  by_cases hpres : acc.any (fun c => decide (c.id = b.cargoId)) = true
  · rw [if_pos hpres, countCargo_bumpMap]
    rcases List.any_eq_true.1 hpres with ⟨c, hc, hcb⟩
    rw [decide_eq_true_eq] at hcb
    have hge : 1 ≤ (acc.filter (fun c => decide (c.id = b.cargoId))).length := by
      have : c ∈ acc.filter (fun c => decide (c.id = b.cargoId)) :=
        List.mem_filter.2 ⟨hc, by simp [hcb]⟩
      exact List.length_pos.2 (List.ne_nil_of_mem this)
    have hle := filter_id_length_le_one b.cargoId hnd
    have hlen : (acc.filter (fun c => decide (c.id = b.cargoId))).length = 1 := by omega
    rw [hlen]
  · rw [if_neg hpres, countCargo_append, countCargo, countCargo]
    have hid : ({ b.originalItem with quantity := 1 } : CargoItem).id = b.cargoId := hwfb
    rw [hid]
    by_cases h : b.cargoId = cid
    · simp [h]
    · simp [h]

theorem aggStep_wf (acc : List CargoItem) (b : BoxToPack)
    (hnd : (acc.map (fun c => c.id)).Nodup) (hwfb : b.originalItem.id = b.cargoId) :
    ((aggStep acc b).map (fun c => c.id)).Nodup := by
  unfold aggStep
  by_cases hpres : acc.any (fun c => decide (c.id = b.cargoId)) = true
  · rw [if_pos hpres]
    have hmap : (acc.map (fun c => if c.id = b.cargoId then
        ({ c with quantity := c.quantity + 1 } : CargoItem) else c)).map (fun c => c.id) =
        acc.map (fun c => c.id) := by
      rw [List.map_map]
      apply List.map_congr_left
      intro c _
      by_cases hc : c.id = b.cargoId
      · simp [hc]
      · simp [hc]
    rw [hmap]
    exact hnd
  · rw [if_neg hpres, List.map_append]
    rw [List.nodup_append]
    refine ⟨hnd, by simp, ?_⟩
    intro x hx
    rcases List.mem_map.1 hx with ⟨c, hc, rfl⟩
    simp only [List.map_cons, List.map_nil, List.mem_singleton]
    intro hcid
    have hcb : c.id = b.cargoId := by rw [hcid]; exact hwfb
    rw [List.any_eq_true] at hpres
    exact hpres ⟨c, hc, by simp [hcb]⟩

theorem agg_fold (boxes : List BoxToPack) :
    ∀ acc : List CargoItem,
      (∀ b ∈ boxes, b.originalItem.id = b.cargoId) →
      (acc.map (fun c => c.id)).Nodup →
      (∀ cid, countCargo (boxes.foldl aggStep acc) cid =
          countCargo acc cid + countBoxes boxes cid) ∧
        ((boxes.foldl aggStep acc).map (fun c => c.id)).Nodup := by
  induction boxes with
  | nil => intro acc _ hnd; exact ⟨fun cid => by simp [countBoxes], hnd⟩
  | cons b t ih =>
      intro acc hwf hnd
      rw [List.foldl_cons]
      have hwfb : b.originalItem.id = b.cargoId := hwf b (List.mem_cons_self b t)
      have hwft : ∀ x ∈ t, x.originalItem.id = x.cargoId :=
        fun x hx => hwf x (List.mem_cons_of_mem b hx)
      have hnd2 := aggStep_wf acc b hnd hwfb
      obtain ⟨hcnt, hnd3⟩ := ih (aggStep acc b) hwft hnd2
      refine ⟨fun cid => ?_, hnd3⟩
      rw [hcnt cid, aggStep_count acc b cid hnd hwfb, countBoxes_cons]
      omega

theorem countCargo_aggregateUnplaced (boxes : List BoxToPack)
    (hwf : ∀ b ∈ boxes, b.originalItem.id = b.cargoId) (cid : String) :
    countCargo (aggregateUnplaced boxes) cid = countBoxes boxes cid := by
  unfold aggregateUnplaced
  have := (agg_fold boxes [] hwf (by simp)).1 cid
  rw [this]
  simp [countCargo]
theorem packGo_pool_subset (ctx : PackCtx) :
    ∀ (fuel : ℕ) (s : PackState), ∀ b ∈ (packGo ctx fuel s).pool, b ∈ s.pool := by
  intro fuel
  induction fuel with
  | zero => intro s b hb; exact hb
  | succ n ih =>
      intro s b hb
      rw [packGo] at hb
      rcases hfb : findBest ctx s with _ | mv
      · rw [hfb] at hb; exact hb
      · rw [hfb] at hb
        have hb2 := ih (commitMove ctx s mv) b hb
        obtain ⟨box, anc, hget, -, -, -, -, -⟩ := findBest_ok ctx s mv hfb
        rw [commitMove_eq ctx s mv box hget] at hb2
        exact List.eraseIdx_subset _ _ hb2

theorem packSingleContainer_pool_subset (spec : ContainerSpec) (boxes : List BoxToPack)
    (cIdx : ℕ) : ∀ b ∈ (packSingleContainer spec boxes cIdx).2, b ∈ boxes := by
  intro b hb
  exact packGo_pool_subset _ _ _ b hb

theorem shipmentPlaced_cons (r : PackingResult) (rs : List PackingResult) (cid : String) :
    shipmentPlaced (r :: rs) cid = countPlaced r.placedItems cid + shipmentPlaced rs cid := by
  unfold shipmentPlaced
  rw [List.map_cons, List.sum_cons]

theorem shipmentResidual_cons (r : PackingResult) (rs : List PackingResult) (cid : String) :
    shipmentResidual (r :: rs) cid = countCargo r.unplacedItems cid + shipmentResidual rs cid := by
  unfold shipmentResidual
  rw [List.map_cons, List.sum_cons]

theorem shipmentResidual_of_nil (rs : List PackingResult) (cid : String)
    (hnil : ∀ r ∈ rs, r.unplacedItems = []) : shipmentResidual rs cid = 0 := by
  induction rs with
  | nil => rfl
  | cons r t ih =>
      rw [shipmentResidual_cons, hnil r (List.mem_cons_self r t), ih
        (fun x hx => hnil x (List.mem_cons_of_mem r hx))]
      rfl

theorem shipmentPlaced_setLast (rs : List PackingResult) (u : List CargoItem) (cid : String) :
    shipmentPlaced (setLastUnplaced rs u) cid = shipmentPlaced rs cid := by
  induction rs with
  | nil => rfl
  | cons r t ih =>
      rcases t with _ | ⟨r2, t2⟩
      · rfl
      · rw [setLastUnplaced, shipmentPlaced_cons, shipmentPlaced_cons, ih]

theorem shipmentResidual_setLast (rs : List PackingResult) (u : List CargoItem) (cid : String)
    (hnil : ∀ r ∈ rs, r.unplacedItems = []) (hne : rs ≠ []) :
    shipmentResidual (setLastUnplaced rs u) cid = countCargo u cid := by
  induction rs with
  | nil => exact absurd rfl hne
  | cons r t ih =>
      rcases t with _ | ⟨r2, t2⟩
      · rw [setLastUnplaced, shipmentResidual_cons]
        show countCargo u cid + shipmentResidual [] cid = countCargo u cid
        unfold shipmentResidual
        simp
      · rw [setLastUnplaced, shipmentResidual_cons,
          hnil r (List.mem_cons_self r _),
          ih (fun x hx => hnil x (List.mem_cons_of_mem r hx)) (by simp)]
        show countCargo [] cid + countCargo u cid = countCargo u cid
        rw [countCargo]
        omega
/-- Bundled facts about the uniform planner loop: conservation of boxes, no
intermediate unplaced lists, leftover drawn from the input, and non-emptiness
of the result list when boxes remain and fuel is adequate. -/
theorem runUniform_spec (spec : ContainerSpec) :
    ∀ (fuel : ℕ) (boxes : List BoxToPack) (count : ℕ),
      (∀ cid, shipmentPlaced (runUniform spec fuel boxes count).1 cid +
          countBoxes (runUniform spec fuel boxes count).2 cid = countBoxes boxes cid) ∧
      (∀ r ∈ (runUniform spec fuel boxes count).1, r.unplacedItems = []) ∧
      (∀ b ∈ (runUniform spec fuel boxes count).2, b ∈ boxes) ∧
      (boxes.length ≤ fuel → (runUniform spec fuel boxes count).1 = [] → boxes = []) := by
  intro fuel
  induction fuel with
  | zero =>
      intro boxes count
      refine ⟨fun cid => by simp [runUniform, shipmentPlaced], by simp [runUniform],
        by simp [runUniform], ?_⟩
      intro hlen _
      exact List.length_eq_zero.1 (by omega)
  | succ n ih =>
      intro boxes count
      rw [runUniform]
      by_cases hempty : boxes.isEmpty = true
      · refine ⟨fun cid => by simp [hempty, shipmentPlaced], by simp [hempty],
          by simp [hempty], fun _ _ => List.isEmpty_iff.1 hempty⟩
      · simp only [hempty, Bool.false_eq_true, if_false]
        by_cases hzero : (packSingleContainer spec boxes (count + 1)).1.placedItems.length = 0
        · rw [if_pos hzero]
          dsimp only
          refine ⟨fun cid => ?_, ?_, ?_, ?_⟩
          · rw [shipmentPlaced_cons]
            have h1 := packSingleContainer_counts spec boxes (count + 1) cid
            have h0 : shipmentPlaced [] cid = 0 := rfl
            omega
          · intro r hr
            rcases List.mem_singleton.1 hr with rfl
            rfl
          · intro b hb
            exact packSingleContainer_pool_subset spec boxes (count + 1) b hb
          · intro _ hcon
            simp at hcon
        · rw [if_neg hzero]
          dsimp only
          obtain ⟨ihc, ihnil, ihsub, ihne⟩ :=
            ih (packSingleContainer spec boxes (count + 1)).2 (count + 1)
          refine ⟨fun cid => ?_, ?_, ?_, ?_⟩
          · rw [shipmentPlaced_cons]
            have h1 := packSingleContainer_counts spec boxes (count + 1) cid
            have h2 := ihc cid
            omega
          · intro r hr
            rcases List.mem_cons.1 hr with rfl | hr
            · rfl
            · exact ihnil r hr
          · intro b hb
            exact packSingleContainer_pool_subset spec boxes (count + 1) b
              (ihsub b hb)
          · intro _ hcon
            simp at hcon
theorem runPlan_spec :
    ∀ (specs : List ContainerSpec) (boxes : List BoxToPack) (count : ℕ),
      (∀ cid, shipmentPlaced (runPlan specs boxes count).1 cid +
          countBoxes (runPlan specs boxes count).2 cid = countBoxes boxes cid) ∧
      (∀ r ∈ (runPlan specs boxes count).1, r.unplacedItems = []) ∧
      (∀ b ∈ (runPlan specs boxes count).2, b ∈ boxes) ∧
      (specs ≠ [] → (runPlan specs boxes count).1 = [] → boxes = []) := by
  intro specs
  induction specs with
  | nil =>
      intro boxes count
      refine ⟨fun cid => by simp [runPlan, shipmentPlaced], by simp [runPlan],
        by simp [runPlan], fun h _ => absurd rfl h⟩
  | cons spec rest ih =>
      intro boxes count
      rw [runPlan]
      by_cases hempty : boxes.isEmpty = true
      · refine ⟨fun cid => by simp [hempty, shipmentPlaced], by simp [hempty],
          by simp [hempty], fun _ _ => List.isEmpty_iff.1 hempty⟩
      · simp only [hempty, Bool.false_eq_true, if_false]
        obtain ⟨ihc, ihnil, ihsub, -⟩ :=
          ih (packSingleContainer spec boxes (count + 1)).2 (count + 1)
        refine ⟨fun cid => ?_, ?_, ?_, ?_⟩
        · rw [shipmentPlaced_cons]
          have h1 := packSingleContainer_counts spec boxes (count + 1) cid
          have h2 := ihc cid
          omega
        · intro r hr
          rcases List.mem_cons.1 hr with rfl | hr
          · rfl
          · exact ihnil r hr
        · intro b hb
          exact packSingleContainer_pool_subset spec boxes (count + 1) b (ihsub b hb)
        · intro _ hcon
          simp at hcon

theorem smartChoice_cases (c40 c40h : ContainerSpec) (boxes : List BoxToPack) (cc : ℕ) :
    smartChoice c40 c40h boxes cc = packSingleContainer c40 boxes cc ∨
      smartChoice c40 c40h boxes cc = packSingleContainer c40h boxes cc := by
  rw [smartChoice]
  by_cases hC : (boxes.any (fun b =>
      decide (c40.dimensions.height - OPERATION_BUFFER - FORKLIFT_LIFT_MARGIN < b.dim.h))) = true
  · rw [if_pos hC]
    exact Or.inr rfl
  · rw [if_neg hC]
    by_cases hU : useHQ (packSingleContainer c40 boxes cc) (packSingleContainer c40h boxes cc)
      = true
    · rw [if_pos hU]
      exact Or.inr rfl
    · rw [if_neg hU]
      exact Or.inl rfl

theorem smartChoice_counts (c40 c40h : ContainerSpec) (boxes : List BoxToPack) (cc : ℕ)
    (cid : String) :
    countPlaced (smartChoice c40 c40h boxes cc).1.placedItems cid +
      countBoxes (smartChoice c40 c40h boxes cc).2 cid = countBoxes boxes cid := by
  rcases smartChoice_cases c40 c40h boxes cc with h | h <;> rw [h]
  · exact packSingleContainer_counts c40 boxes cc cid
  · exact packSingleContainer_counts c40h boxes cc cid

theorem smartChoice_pool_subset (c40 c40h : ContainerSpec) (boxes : List BoxToPack) (cc : ℕ) :
    ∀ b ∈ (smartChoice c40 c40h boxes cc).2, b ∈ boxes := by
  rcases smartChoice_cases c40 c40h boxes cc with h | h <;> rw [h]
  · exact packSingleContainer_pool_subset c40 boxes cc
  · exact packSingleContainer_pool_subset c40h boxes cc

theorem smartChoice_unplaced (c40 c40h : ContainerSpec) (boxes : List BoxToPack) (cc : ℕ) :
    (smartChoice c40 c40h boxes cc).1.unplacedItems = [] := by
  rcases smartChoice_cases c40 c40h boxes cc with h | h <;> rw [h] <;> rfl

theorem runSmart_spec (c20 c40 c40h : ContainerSpec) :
    ∀ (fuel : ℕ) (boxes : List BoxToPack) (count : ℕ),
      (∀ cid, shipmentPlaced (runSmart c20 c40 c40h fuel boxes count).1 cid +
          countBoxes (runSmart c20 c40 c40h fuel boxes count).2 cid = countBoxes boxes cid) ∧
      (∀ r ∈ (runSmart c20 c40 c40h fuel boxes count).1, r.unplacedItems = []) ∧
      (∀ b ∈ (runSmart c20 c40 c40h fuel boxes count).2, b ∈ boxes) ∧
      (boxes.length ≤ fuel → (runSmart c20 c40 c40h fuel boxes count).1 = [] → boxes = []) := by
  intro fuel
  induction fuel with
  | zero =>
      intro boxes count
      refine ⟨fun cid => by simp [runSmart, shipmentPlaced], by simp [runSmart],
        by simp [runSmart], ?_⟩
      intro hlen _
      exact List.length_eq_zero.1 (by omega)
  | succ n ih =>
      intro boxes count
      rw [runSmart]
      by_cases hempty : boxes.isEmpty = true
      · refine ⟨fun cid => by simp [hempty, shipmentPlaced], by simp [hempty],
          by simp [hempty], fun _ _ => List.isEmpty_iff.1 hempty⟩
      · simp only [hempty, Bool.false_eq_true, if_false]
        by_cases hdone : (packSingleContainer c20 boxes (count + 1)).2.isEmpty = true
        · rw [if_pos hdone]
          dsimp only
          refine ⟨fun cid => ?_, ?_, ?_, ?_⟩
          · rw [shipmentPlaced_cons]
            have h1 := packSingleContainer_counts c20 boxes (count + 1) cid
            have h2 : countBoxes (packSingleContainer c20 boxes (count + 1)).2 cid = 0 := by
              rw [List.isEmpty_iff.1 hdone]
              rfl
            have h0 : shipmentPlaced [] cid = 0 := rfl
            have h3 : countBoxes ([] : List BoxToPack) cid = 0 := rfl
            omega
          · intro r hr
            rcases List.mem_singleton.1 hr with rfl
            rfl
          · intro b hb
            simp at hb
          · intro _ hcon
            simp at hcon
        · rw [if_neg hdone]
          by_cases hzero : (smartChoice c40 c40h boxes (count + 1)).1.placedItems.length = 0
          · rw [if_pos hzero]
            dsimp only
            refine ⟨fun cid => ?_, ?_, ?_, ?_⟩
            · rw [shipmentPlaced_cons]
              have h0 : shipmentPlaced [] cid = 0 := rfl
              have := smartChoice_counts c40 c40h boxes (count + 1) cid
              omega
            · intro r hr
              rcases List.mem_singleton.1 hr with rfl
              exact smartChoice_unplaced c40 c40h boxes (count + 1)
            · exact smartChoice_pool_subset c40 c40h boxes (count + 1)
            · intro _ hcon
              simp at hcon
          · rw [if_neg hzero]
            dsimp only
            obtain ⟨ihc, ihnil, ihsub, -⟩ :=
              ih (smartChoice c40 c40h boxes (count + 1)).2 (count + 1)
            refine ⟨fun cid => ?_, ?_, ?_, ?_⟩
            · rw [shipmentPlaced_cons]
              have h2 := ihc cid
              have := smartChoice_counts c40 c40h boxes (count + 1) cid
              omega
            · intro r hr
              rcases List.mem_cons.1 hr with rfl | hr
              · exact smartChoice_unplaced c40 c40h boxes (count + 1)
              · exact ihnil r hr
            · intro b hb
              exact smartChoice_pool_subset c40 c40h boxes (count + 1) b (ihsub b hb)
            · intro _ hcon
              simp at hcon
theorem expandCargo_wf (cargo : List CargoItem) :
    ∀ b ∈ expandCargo cargo, b.originalItem.id = b.cargoId := by
  intro b hb
  rcases List.mem_flatMap.1 hb with ⟨item, -, hmem⟩
  rcases List.mem_map.1 hmem with ⟨i, -, rfl⟩
  rfl

theorem sortBoxes_mem (l : List BoxToPack) : ∀ b ∈ sortBoxes l, b ∈ l := by
  intro b hb
  exact (List.mem_insertionSort _).1 hb

/-- Whether the chosen strategy can return results at all: an explicit plan
must name at least one container. -/
def strategyOk : Strategy → Prop
  | Strategy.plan specs => specs ≠ []
  | _ => True

theorem core_assemble (boxes : List BoxToPack) (run : List PackingResult × List BoxToPack)
    (hc : ∀ cid, shipmentPlaced run.1 cid + countBoxes run.2 cid = countBoxes boxes cid)
    (hnil : ∀ r ∈ run.1, r.unplacedItems = [])
    (hsub : ∀ b ∈ run.2, b ∈ boxes)
    (hwf : ∀ b ∈ boxes, b.originalItem.id = b.cargoId)
    (hne : run.1 = [] → boxes = []) (cid : String) :
    shipmentPlaced (if run.2.isEmpty ∨ run.1.isEmpty then run.1
        else setLastUnplaced run.1 (aggregateUnplaced run.2)) cid +
      shipmentResidual (if run.2.isEmpty ∨ run.1.isEmpty then run.1
        else setLastUnplaced run.1 (aggregateUnplaced run.2)) cid = countBoxes boxes cid := by
  by_cases hcond : (run.2.isEmpty : Prop) ∨ (run.1.isEmpty : Prop)
  · rw [if_pos hcond]
    rw [shipmentResidual_of_nil run.1 cid hnil]
    rcases hcond with h2 | h1
    · have : countBoxes run.2 cid = 0 := by
        rw [List.isEmpty_iff.1 h2]
        rfl
      have := hc cid
      omega
    · have hb0 : boxes = [] := hne (List.isEmpty_iff.1 h1)
      have hr1 : run.1 = [] := List.isEmpty_iff.1 h1
      have h01 : shipmentPlaced run.1 cid = 0 := by rw [hr1]; rfl
      have h02 : countBoxes boxes cid = 0 := by rw [hb0]; rfl
      omega
  · rw [if_neg hcond]
    push_neg at hcond
    have hr1ne : run.1 ≠ [] := by
      intro h
      exact hcond.2 (List.isEmpty_iff.2 h)
    rw [shipmentPlaced_setLast, shipmentResidual_setLast run.1 _ cid hnil hr1ne,
      countCargo_aggregateUnplaced run.2 (fun b hb => hwf b (hsub b hb)) cid]
    exact hc cid

/-- Claim C1 (amended): mass conservation holds for the shipment BEFORE the
final zero-placement filter: for every strategy (an explicit plan naming at
least one container) and every cargo list, the boxes placed across all
results plus the residual attached to the last result equal the expanded
input multiset, counted by cargo id. The original claim fails for the
filtered output (see the counterexample): a lone zero-placement result
carrying the whole residual is dropped. -/
theorem C1_conservation (strategy : Strategy) (cargo : List CargoItem)
    (hok : strategyOk strategy) (cid : String) :
    shipmentPlaced (calcShipmentCore strategy cargo) cid +
      shipmentResidual (calcShipmentCore strategy cargo) cid = countCargo cargo cid := by
  have hcb : countBoxes (sortBoxes (expandCargo cargo)) cid = countCargo cargo cid := by
    rw [countBoxes_sortBoxes, countBoxes_expandCargo]
  have hwf : ∀ b ∈ sortBoxes (expandCargo cargo), b.originalItem.id = b.cargoId :=
    fun b hb => expandCargo_wf cargo b (sortBoxes_mem _ b hb)
  cases strategy with
  | plan specs =>
      unfold calcShipmentCore
      rw [← hcb]
      obtain ⟨hc, hnil, hsub, hne⟩ := runPlan_spec specs (sortBoxes (expandCargo cargo)) 0
      exact core_assemble _ _ hc hnil hsub hwf (hne hok) cid
  | uniform spec =>
      unfold calcShipmentCore
      rw [← hcb]
      obtain ⟨hc, hnil, hsub, hne⟩ :=
        runUniform_spec spec (sortBoxes (expandCargo cargo)).length (sortBoxes (expandCargo cargo)) 0
      exact core_assemble _ _ hc hnil hsub hwf (hne le_rfl) cid
  | smartMix =>
      unfold calcShipmentCore
      rw [← hcb]
      obtain ⟨hc, hnil, hsub, hne⟩ :=
        runSmart_spec c20GP c40GP c40HQ (sortBoxes (expandCargo cargo)).length
          (sortBoxes (expandCargo cargo)) 0
      exact core_assemble _ _ hc hnil hsub hwf (hne le_rfl) cid
/-! Concrete cargo data used by the scenario checks. -/

def s2item : CargoItem :=
  { id := "it1", name := "box", dimensions := ⟨120, 100, 100⟩, weight := 50,
    color := "#f00", quantity := 1, unstackable := false }

def heavyItem1 : CargoItem :=
  { id := "hv", name := "heavy", dimensions := ⟨10, 10, 10⟩, weight := 99999,
    color := "#f00", quantity := 1, unstackable := false }

def heavyBoxItem : CargoItem :=
  { id := "hb", name := "heavyBox", dimensions := ⟨250, 200, 80⟩, weight := 28500,
    color := "#0f0", quantity := 1, unstackable := false }

def lightBoxItem : CargoItem :=
  { id := "lb", name := "lightBox", dimensions := ⟨200, 100, 100⟩, weight := 100,
    color := "#00f", quantity := 1, unstackable := false }

def wideItem : CargoItem :=
  { id := "wd", name := "wide", dimensions := ⟨100, 200, 100⟩, weight := 40,
    color := "#aaa", quantity := 2, unstackable := false }

def stackBoxes : List BoxToPack := sortBoxes (expandCargo [wideItem])

theorem useHQ_iff (c40 c40h : ContainerSpec) (boxes : List BoxToPack) (cc : ℕ) :
    useHQ (packSingleContainer c40 boxes cc) (packSingleContainer c40h boxes cc) = true ↔
      ((packSingleContainer c40 boxes cc).1.placedItems.length <
          (packSingleContainer c40h boxes cc).1.placedItems.length ∨
        ((packSingleContainer c40h boxes cc).1.placedItems.length =
            (packSingleContainer c40 boxes cc).1.placedItems.length ∧
          (packSingleContainer c40 boxes cc).1.usedVolume + 2 <
            (packSingleContainer c40h boxes cc).1.usedVolume)) := by
  have hgp := packSingleContainer_lengths c40 boxes cc
  have hhq := packSingleContainer_lengths c40h boxes cc
  rw [useHQ]
  simp only [Bool.or_eq_true, decide_eq_true_eq]
  constructor
  · rintro ((⟨hrem, hgpr⟩ | hmore) | ⟨heq, -, hdiff⟩)
    · exact Or.inl (by omega)
    · exact Or.inl hmore
    · refine Or.inr ⟨heq, ?_⟩
      have h2 : (2.0 : ℚ) = 2 := by norm_num [OfScientific.ofScientific]
      rw [h2] at hdiff
      linarith
  · rintro (hmore | ⟨heq, hvol⟩)
    · exact Or.inl (Or.inr hmore)
    · refine Or.inr ⟨heq, by linarith, ?_⟩
      have h2 : (2.0 : ℚ) = 2 := by norm_num [OfScientific.ofScientific]
      rw [h2]
      linarith

/-- Claim C3 (amended): when no remaining box is taller than the 40-foot
usable height, the SMART_MIX step commits the 40HQ simulation exactly when it
places strictly more items than 40GP, or places equally many and uses MORE
THAN 2 m³ more volume (strictly, not "at least"); the completes-the-manifest
disjunct of the source is subsumed by places-strictly-more, since placed and
leftover counts always sum to the pool size. In every other case the 40GP
simulation is committed. -/
theorem C3_decision (c40 c40h : ContainerSpec) (boxes : List BoxToPack) (cc : ℕ)
    (hta : boxes.any (fun b =>
      decide (c40.dimensions.height - OPERATION_BUFFER - FORKLIFT_LIFT_MARGIN < b.dim.h))
      = false) :
    smartChoice c40 c40h boxes cc =
      if (packSingleContainer c40 boxes cc).1.placedItems.length <
            (packSingleContainer c40h boxes cc).1.placedItems.length ∨
          ((packSingleContainer c40h boxes cc).1.placedItems.length =
              (packSingleContainer c40 boxes cc).1.placedItems.length ∧
            (packSingleContainer c40 boxes cc).1.usedVolume + 2 <
              (packSingleContainer c40h boxes cc).1.usedVolume)
      then packSingleContainer c40h boxes cc
      else packSingleContainer c40 boxes cc := by
  rw [smartChoice, if_neg (by simp [hta])]
  simp only []
  by_cases hP : ((packSingleContainer c40 boxes cc).1.placedItems.length <
        (packSingleContainer c40h boxes cc).1.placedItems.length ∨
      ((packSingleContainer c40h boxes cc).1.placedItems.length =
          (packSingleContainer c40 boxes cc).1.placedItems.length ∧
        (packSingleContainer c40 boxes cc).1.usedVolume + 2 <
          (packSingleContainer c40h boxes cc).1.usedVolume))
  · rw [if_pos ((useHQ_iff c40 c40h boxes cc).2 hP), if_pos hP]
  · rw [if_neg (fun hu => hP ((useHQ_iff c40 c40h boxes cc).1 hu)), if_neg hP]
theorem corner_not_inside (q p : PlacedItem) (a : Pos) (hc : a ∈ anchorCorners q)
    (hqpos : 0 < q.dimensions.length ∧ 0 < q.dimensions.width ∧ 0 < q.dimensions.height)
    (hno : p = q ∨ ¬ aabbIntersects p q) :
    ¬ strictlyInside a p := by
  intro hin
  obtain ⟨h1, h2, h3, h4, h5, h6⟩ := hin
  simp only [anchorCorners, List.mem_cons, List.not_mem_nil, or_false] at hc
  rcases hno with rfl | hno
  · rcases hc with rfl | rfl | rfl
    · dsimp only at h4
      linarith
    · dsimp only at h6
      linarith
    · dsimp only at h2
      linarith
  · apply hno
    obtain ⟨hql, hqw, hqh⟩ := hqpos
    rcases hc with rfl | rfl | rfl
    · dsimp only at h1 h2 h3 h4 h5 h6
      exact ⟨by linarith, by linarith, by linarith, by linarith, by linarith, by linarith⟩
    · dsimp only at h1 h2 h3 h4 h5 h6
      exact ⟨by linarith, by linarith, by linarith, by linarith, by linarith, by linarith⟩
    · dsimp only at h1 h2 h3 h4 h5 h6
      exact ⟨by linarith, by linarith, by linarith, by linarith, by linarith, by linarith⟩

theorem aabbIntersects_symm {p q : PlacedItem} (h : aabbIntersects p q) : aabbIntersects q p := by
  obtain ⟨h1, h2, h3, h4, h5, h6⟩ := h
  exact ⟨h2, h1, h4, h3, h6, h5⟩

theorem anchors_not_inside (ctx : PackCtx) (pool0 : List BoxToPack) (s : PackState)
    (hInv : Inv ctx pool0 s) :
    ∀ a ∈ s.anchors, ∀ p ∈ s.placed, ¬ strictlyInside a p := by
  intro a ha p hp
  rcases hInv.anchorsProv a ha with rfl | ⟨q, hq, hc⟩
  · intro hin
    obtain ⟨hgex, -, -, -, -, -⟩ := hInv.bounds p hp
    obtain ⟨h1, -⟩ := hin
    have : p.position.x < 0 := h1
    linarith
  · obtain ⟨-, -, -, -, -, -, hlq, hwq, hhq⟩ := hInv.bounds q hq
    by_cases hpq : p = q
    · exact corner_not_inside q p a hc ⟨hlq, hwq, hhq⟩ (Or.inl hpq)
    · have hsym : Symmetric (fun p q : PlacedItem => ¬ aabbIntersects p q) :=
        fun x y hxy hyx => hxy (aabbIntersects_symm hyx)
      exact corner_not_inside q p a hc ⟨hlq, hwq, hhq⟩
        (Or.inr (hInv.noOverlap.forall hsym hp hq hpq))

theorem packGo_anchorsUsable (ctx : PackCtx) :
    ∀ (fuel : ℕ) (s : PackState),
      (∀ a ∈ s.anchors, anchorUsable ctx a = true) →
      ∀ a ∈ (packGo ctx fuel s).anchors, anchorUsable ctx a = true := by
  intro fuel
  induction fuel with
  | zero => intro s h; exact h
  | succ n ih =>
      intro s h
      rw [packGo]
      rcases hfb : findBest ctx s with _ | mv
      · exact h
      · apply ih
        intro a ha
        unfold commitMove at ha
        rcases hget : s.pool.get? mv.boxIndex with _ | box
        · rw [hget] at ha
          exact h a ha
        · rw [hget] at ha
          exact (List.mem_filter.1 ha).2
def capItem : CargoItem :=
  { id := "cap", name := "cap", dimensions := ⟨100, 100, 198⟩, weight := 10,
    color := "#000", quantity := 1, unstackable := true }

def capBox : BoxToPack := mkUnitBox capItem 0

/-- Claim C9 (amended): for a candidate whose box is unstackable the score
is exactly the base term plus 1000000 when the top gap exceeds 40 cm and
minus 500000 otherwise, plus the universal adhesion and flush bonuses — but
the top gap is measured against the USABLE height
`H_c - OPERATION_BUFFER`, not the full interior height `H_c` of the claim
(see the counterexample). No stackable-strategy modifier is applied. -/
theorem C9_score (spec : ContainerSpec) (boxes : List BoxToPack) (cIdx : ℕ)
    (g : Grid) (box : BoxToPack) (anc : Pos) (dim : Dim) (optZ zzSrc : ℚ)
    (hu : box.unstackable = true) :
    candidateScore (mkCtx spec boxes cIdx) g box anc dim optZ zzSrc =
      anc.x * 10000 + anc.y * 10 + optZ +
        (if 40 < spec.dimensions.height - OPERATION_BUFFER - (anc.y + dim.h)
          then (1000000 : ℚ) else -500000) +
        (if hasAdhesionNeighbor g ⟨anc.x, anc.y, optZ⟩ dim box.cargoId
          then -ADHESION_BONUS else 0) +
        (if isFlushWithNeighbors g ⟨anc.x, anc.y, optZ⟩ dim then -FLUSH_BONUS else 0) := by
  unfold candidateScore
  rw [hu]
  have hh : (mkCtx spec boxes cIdx).cDim.h = spec.dimensions.height - OPERATION_BUFFER := rfl
  simp only [if_true, hh]

/-! The frozen claims: theorems, witnesses and counterexamples. -/

def cboxes3 : List BoxToPack := sortBoxes (expandCargo [heavyBoxItem, lightBoxItem])

def mix7 : List BoxToPack := sortBoxes (expandCargo [heavyItem1, s2item])

/-- Claim C1 (counterexample): conservation fails for the returned shipment.
A single box whose weight exceeds every cap is never placed; the lone
zero-placement result carries the whole residual and the final filter drops
it, so the output is empty while the input held one box. -/
theorem C1_counterexample :
    calculateShipment (Strategy.uniform c20GP) [heavyItem1] = [] ∧
    countCargo [heavyItem1] "hv" = 1 ∧
    shipmentPlaced (calculateShipment (Strategy.uniform c20GP) [heavyItem1]) "hv" +
      shipmentResidual (calculateShipment (Strategy.uniform c20GP) [heavyItem1]) "hv" = 0 := by
  refine ⟨by decide, by decide, by decide⟩

/-- Witness for C1: conservation for the pre-filter shipment on the very
input of the counterexample. -/
theorem C1_conservation_witness :
    strategyOk (Strategy.uniform c20GP) ∧
    shipmentPlaced (calcShipmentCore (Strategy.uniform c20GP) [heavyItem1]) "hv" +
      shipmentResidual (calcShipmentCore (Strategy.uniform c20GP) [heavyItem1]) "hv" =
      countCargo [heavyItem1] "hv" :=
  ⟨trivial, C1_conservation (Strategy.uniform c20GP) [heavyItem1] (trivial) "hv"⟩

/-- Claim C2 (counterexample): the S2 run places the box at the origin as
claimed, but its used volume is 1.2 m³, not 0.0012 m³, and its volume
utilisation is 1200/331 ≈ 3.63 %, not ≈ 0.036 %. -/
theorem C2_counterexample :
    (calculateShipment (Strategy.uniform c20GP) [s2item]).map
      (fun r => (r.usedVolume, r.volumeUtilization)) = [(6/5, 1200/331)] ∧
    ¬((6 : ℚ)/5 = 0.0012) ∧ (3 < (1200 : ℚ)/331) := by
  refine ⟨by decide, by decide, by decide⟩

/-- Claim C2 (amended): scenario S2 — the single 120×100×100, 50 kg item
under UNIFORM(20GP) yields exactly one result with exactly one placement at
(0, 0, 0) in identity orientation with sequence 1, used volume 1.2 m³ and
volume utilisation 1200/331 % ≈ 3.63 %. -/
theorem C2_s2 :
    (calculateShipment (Strategy.uniform c20GP) [s2item]).map
      (fun r => (r.placedItems.map (fun p => (p.position, p.dimensions, p.rotation, p.sequence)),
        r.usedVolume, r.volumeUtilization)) =
      [([(⟨0, 0, 0⟩, ⟨120, 100, 100⟩, false, 1)], 6/5, 1200/331)] := by
  decide

/-- Claim C3 (counterexample): two boxes on which both 40-foot simulations
place exactly one item and the 40HQ simulation uses exactly 2 m³ more volume.
The claim ("at least 2 m³") demands the 40HQ commit, but the source requires
strictly more than 2 m³ and commits the 40GP simulation. -/
theorem C3_counterexample :
    (packSingleContainer c40HQ cboxes3 1).1.placedItems.length =
        (packSingleContainer c40GP cboxes3 1).1.placedItems.length ∧
    (packSingleContainer c40HQ cboxes3 1).1.usedVolume -
        (packSingleContainer c40GP cboxes3 1).1.usedVolume = 2 ∧
    cboxes3.any (fun b => decide (c40GP.dimensions.height - OPERATION_BUFFER -
        FORKLIFT_LIFT_MARGIN < b.dim.h)) = false ∧
    smartChoice c40GP c40HQ cboxes3 1 = packSingleContainer c40GP cboxes3 1 ∧
    ¬(smartChoice c40GP c40HQ cboxes3 1 = packSingleContainer c40HQ cboxes3 1) := by
  refine ⟨by decide, by decide, by decide, by decide, by decide⟩

/-- Witness for C3: the decision characterisation on a concrete residual
with no extra-tall box. -/
theorem C3_decision_witness :
    cboxes3.any (fun b => decide (c40GP.dimensions.height - OPERATION_BUFFER -
        FORKLIFT_LIFT_MARGIN < b.dim.h)) = false ∧
    smartChoice c40GP c40HQ cboxes3 1 =
      (if (packSingleContainer c40GP cboxes3 1).1.placedItems.length <
            (packSingleContainer c40HQ cboxes3 1).1.placedItems.length ∨
          ((packSingleContainer c40HQ cboxes3 1).1.placedItems.length =
              (packSingleContainer c40GP cboxes3 1).1.placedItems.length ∧
            (packSingleContainer c40GP cboxes3 1).1.usedVolume + 2 <
              (packSingleContainer c40HQ cboxes3 1).1.usedVolume)
      then packSingleContainer c40HQ cboxes3 1
      else packSingleContainer c40GP cboxes3 1) :=
  ⟨by decide, C3_decision c40GP c40HQ cboxes3 1 (by decide)⟩

/-- Claim C4 (confirmed): every committed placement with y > 0 is supported
by the placements committed before it — supporters whose top surface equals
its y within 0.1 cm and whose footprint overlaps contribute at least 0.70 of
its base area l·w, and no supporter is unstackable; a placement with y = 0
rests on the floor and needs no support. -/
theorem C4_support (spec : ContainerSpec) (boxes : List BoxToPack) (cIdx : ℕ)
    (hpool : ∀ b ∈ boxes, 0 < b.dim.l ∧ 0 < b.dim.w ∧ 0 < b.dim.h)
    (hw : 0 ≤ spec.maxWeight) :
    SupportOkAt (packSingleContainer spec boxes cIdx).1.placedItems := by
  show SupportOkAt (packFinalState spec boxes cIdx).placed
  exact (packFinalState_inv spec boxes cIdx hpool hw).support

/-- Witness for C4: the stacking run (two 100×200×100 boxes, the second at
y = 100) satisfies the support invariant. -/
theorem C4_support_witness :
    (∀ b ∈ stackBoxes, 0 < b.dim.l ∧ 0 < b.dim.w ∧ 0 < b.dim.h) ∧
    0 ≤ c20GP.maxWeight ∧
    SupportOkAt (packSingleContainer c20GP stackBoxes 1).1.placedItems :=
  ⟨by decide, by decide, C4_support c20GP stackBoxes 1 (by decide) (by decide)⟩

/-- Claim C5 (confirmed): distinct placements of one container run never
overlap — the six-inequality test `aabbIntersects` is strict on every face,
and placements sharing a face (one starting exactly where the other ends) do
not count as overlapping. -/
theorem C5_no_overlap (spec : ContainerSpec) (boxes : List BoxToPack) (cIdx : ℕ)
    (hpool : ∀ b ∈ boxes, 0 < b.dim.l ∧ 0 < b.dim.w ∧ 0 < b.dim.h)
    (hw : 0 ≤ spec.maxWeight) :
    (packSingleContainer spec boxes cIdx).1.placedItems.Pairwise
      (fun p q => ¬ aabbIntersects p q) ∧
    (∀ p q : PlacedItem, p.position.x + p.dimensions.length = q.position.x →
      ¬ aabbIntersects p q) := by
  constructor
  · show (packFinalState spec boxes cIdx).placed.Pairwise _
    exact (packFinalState_inv spec boxes cIdx hpool hw).noOverlap
  · intro p q h hint
    obtain ⟨-, h2, -⟩ := hint
    rw [h] at h2
    exact lt_irrefl _ h2

/-- Witness for C5: the stacking run's two placements do not overlap. -/
theorem C5_no_overlap_witness :
    (∀ b ∈ stackBoxes, 0 < b.dim.l ∧ 0 < b.dim.w ∧ 0 < b.dim.h) ∧
    0 ≤ c20GP.maxWeight ∧
    ((packSingleContainer c20GP stackBoxes 1).1.placedItems.Pairwise
      (fun p q => ¬ aabbIntersects p q) ∧
    (∀ p q : PlacedItem, p.position.x + p.dimensions.length = q.position.x →
      ¬ aabbIntersects p q)) :=
  ⟨by decide, by decide, C5_no_overlap c20GP stackBoxes 1 (by decide) (by decide)⟩

/-- Claim C6 (confirmed): every committed placement with oriented dims
(l, w, h) satisfies 0 ≤ x, x + l ≤ L_c − OPERATION_BUFFER, 0 ≤ z,
z + w ≤ W_c − OPERATION_BUFFER, 0 ≤ y and
y + h ≤ H_c − OPERATION_BUFFER − FORKLIFT_LIFT_MARGIN. -/
theorem C6_bounds (spec : ContainerSpec) (boxes : List BoxToPack) (cIdx : ℕ)
    (hpool : ∀ b ∈ boxes, 0 < b.dim.l ∧ 0 < b.dim.w ∧ 0 < b.dim.h)
    (hw : 0 ≤ spec.maxWeight) :
    ∀ p ∈ (packSingleContainer spec boxes cIdx).1.placedItems,
      0 ≤ p.position.x ∧
      p.position.x + p.dimensions.length ≤ spec.dimensions.length - OPERATION_BUFFER ∧
      0 ≤ p.position.z ∧
      p.position.z + p.dimensions.width ≤ spec.dimensions.width - OPERATION_BUFFER ∧
      0 ≤ p.position.y ∧
      p.position.y + p.dimensions.height ≤
        spec.dimensions.height - OPERATION_BUFFER - FORKLIFT_LIFT_MARGIN := by
  intro p hp
  obtain ⟨h1, h2, h3, h4, h5, h6, -, -, -⟩ :=
    (packFinalState_inv spec boxes cIdx hpool hw).bounds p hp
  exact ⟨h1, h2, h5, h6, h3, h4⟩

/-- Witness for C6: the stacking run's placements stay in bounds. -/
theorem C6_bounds_witness :
    (∀ b ∈ stackBoxes, 0 < b.dim.l ∧ 0 < b.dim.w ∧ 0 < b.dim.h) ∧
    0 ≤ c20GP.maxWeight ∧
    (∀ p ∈ (packSingleContainer c20GP stackBoxes 1).1.placedItems,
      0 ≤ p.position.x ∧
      p.position.x + p.dimensions.length ≤ c20GP.dimensions.length - OPERATION_BUFFER ∧
      0 ≤ p.position.z ∧
      p.position.z + p.dimensions.width ≤ c20GP.dimensions.width - OPERATION_BUFFER ∧
      0 ≤ p.position.y ∧
      p.position.y + p.dimensions.height ≤
        c20GP.dimensions.height - OPERATION_BUFFER - FORKLIFT_LIFT_MARGIN) :=
  ⟨by decide, by decide, C6_bounds c20GP stackBoxes 1 (by decide) (by decide)⟩

/-- Claim C7 (confirmed): a container result's total weight is the sum of its
placements' weights and never exceeds the cap; every box not committed (the
weight gate rejects an over-cap candidate before scoring) stays in the
residual handed to the next container, so placed plus residual counts equal
the pool per cargo id. -/
theorem C7_weight_cap (spec : ContainerSpec) (boxes : List BoxToPack) (cIdx : ℕ)
    (hw : 0 ≤ spec.maxWeight) :
    (packSingleContainer spec boxes cIdx).1.totalWeight =
        ((packSingleContainer spec boxes cIdx).1.placedItems.map (fun p => p.weight)).sum ∧
    (packSingleContainer spec boxes cIdx).1.totalWeight ≤ spec.maxWeight ∧
    (∀ cid, countPlaced (packSingleContainer spec boxes cIdx).1.placedItems cid +
        countBoxes (packSingleContainer spec boxes cIdx).2 cid = countBoxes boxes cid) := by
  have h := packGo_weight (mkCtx spec boxes cIdx) boxes.length
    ⟨[], emptyGrid, [⟨0, 0, 0⟩], boxes, 0⟩ (by simp) (by simpa using hw)
  refine ⟨?_, ?_, packSingleContainer_counts spec boxes cIdx⟩
  · show (packFinalState spec boxes cIdx).weight =
      ((packFinalState spec boxes cIdx).placed.map (fun p => p.weight)).sum
    unfold packFinalState
    exact h.1
  · show (packFinalState spec boxes cIdx).weight ≤ spec.maxWeight
    unfold packFinalState
    exact h.2

/-- Witness for C7: a 99999 kg box is gated out of the 20GP (cap 28000) while
the 50 kg box is placed; the rejected box stays in the residual. -/
theorem C7_weight_cap_witness :
    0 ≤ c20GP.maxWeight ∧
    ((packSingleContainer c20GP mix7 1).1.totalWeight =
        ((packSingleContainer c20GP mix7 1).1.placedItems.map (fun p => p.weight)).sum ∧
    (packSingleContainer c20GP mix7 1).1.totalWeight ≤ c20GP.maxWeight ∧
    (∀ cid, countPlaced (packSingleContainer c20GP mix7 1).1.placedItems cid +
        countBoxes (packSingleContainer c20GP mix7 1).2 cid = countBoxes mix7 cid)) :=
  ⟨by decide, C7_weight_cap c20GP mix7 1 (by decide)⟩

/-- Claim C8 (counterexample): anchors lying inside a committed AABB are NOT
pruned — the post-commit filter keeps any anchor under the usable upper
bounds. After the stacking run the origin is still an anchor although it
lies within the closed AABB of the first committed placement. -/
theorem C8_counterexample :
    (⟨0, 0, 0⟩ : Pos) ∈ (packFinalState c20GP stackBoxes 1).anchors ∧
    (packFinalState c20GP stackBoxes 1).placed.any
      (fun p => decide (inClosedAABB ⟨0, 0, 0⟩ p)) = true := by
  refine ⟨by decide, by decide⟩

/-- Claim C8 (amended): after a container run the anchor list is sorted by
(x, y, z); every anchor is strictly under the usable upper bounds (the only
pruning the source applies); every anchor is the origin or one of the three
pushed corners (top, far-side, far-front) of a committed placement; and no
anchor lies strictly inside a committed AABB — but anchors on the boundary
of a committed AABB are kept, contrary to the claim. -/
theorem C8_anchors (spec : ContainerSpec) (boxes : List BoxToPack) (cIdx : ℕ)
    (hpool : ∀ b ∈ boxes, 0 < b.dim.l ∧ 0 < b.dim.w ∧ 0 < b.dim.h)
    (hw : 0 ≤ spec.maxWeight)
    (hdim : OPERATION_BUFFER < spec.dimensions.length ∧
      OPERATION_BUFFER < spec.dimensions.width ∧
      OPERATION_BUFFER + FORKLIFT_LIFT_MARGIN < spec.dimensions.height) :
    List.Sorted anchorLe (packFinalState spec boxes cIdx).anchors ∧
    (∀ a ∈ (packFinalState spec boxes cIdx).anchors,
      a.x < spec.dimensions.length - OPERATION_BUFFER ∧
      a.y < spec.dimensions.height - OPERATION_BUFFER - FORKLIFT_LIFT_MARGIN ∧
      a.z < spec.dimensions.width - OPERATION_BUFFER) ∧
    (∀ a ∈ (packFinalState spec boxes cIdx).anchors,
      a = ⟨0, 0, 0⟩ ∨ ∃ p ∈ (packFinalState spec boxes cIdx).placed, a ∈ anchorCorners p) ∧
    (∀ a ∈ (packFinalState spec boxes cIdx).anchors,
      ∀ p ∈ (packFinalState spec boxes cIdx).placed, ¬ strictlyInside a p) := by
  have hInv := packFinalState_inv spec boxes cIdx hpool hw
  refine ⟨hInv.anchorsSorted, ?_, hInv.anchorsProv, anchors_not_inside _ _ _ hInv⟩
  have husable : ∀ x ∈ (packFinalState spec boxes cIdx).anchors,
      anchorUsable (mkCtx spec boxes cIdx) x = true := by
    show ∀ x ∈ (packGo (mkCtx spec boxes cIdx) boxes.length
        ⟨[], emptyGrid, [⟨0, 0, 0⟩], boxes, 0⟩).anchors, _
    apply packGo_anchorsUsable
    intro x hx
    rcases List.mem_singleton.1 hx with rfl
    unfold anchorUsable
    rw [decide_eq_true_eq]
    refine ⟨?_, ?_, ?_⟩
    · show (0 : ℚ) < spec.dimensions.length - OPERATION_BUFFER
      linarith [hdim.1]
    · show (0 : ℚ) < spec.dimensions.height - OPERATION_BUFFER - FORKLIFT_LIFT_MARGIN
      linarith [hdim.2.2]
    · show (0 : ℚ) < spec.dimensions.width - OPERATION_BUFFER
      linarith [hdim.2.1]
  intro a ha
  have h := husable a ha
  unfold anchorUsable at h
  rw [decide_eq_true_eq] at h
  exact h

/-- Witness for C8: the stacking run's anchor list is sorted, bounded,
corner-generated and clear of committed interiors. -/
theorem C8_anchors_witness :
    (∀ b ∈ stackBoxes, 0 < b.dim.l ∧ 0 < b.dim.w ∧ 0 < b.dim.h) ∧
    0 ≤ c20GP.maxWeight ∧
    (OPERATION_BUFFER < c20GP.dimensions.length ∧
      OPERATION_BUFFER < c20GP.dimensions.width ∧
      OPERATION_BUFFER + FORKLIFT_LIFT_MARGIN < c20GP.dimensions.height) ∧
    (List.Sorted anchorLe (packFinalState c20GP stackBoxes 1).anchors ∧
    (∀ a ∈ (packFinalState c20GP stackBoxes 1).anchors,
      a.x < c20GP.dimensions.length - OPERATION_BUFFER ∧
      a.y < c20GP.dimensions.height - OPERATION_BUFFER - FORKLIFT_LIFT_MARGIN ∧
      a.z < c20GP.dimensions.width - OPERATION_BUFFER) ∧
    (∀ a ∈ (packFinalState c20GP stackBoxes 1).anchors,
      a = ⟨0, 0, 0⟩ ∨ ∃ p ∈ (packFinalState c20GP stackBoxes 1).placed, a ∈ anchorCorners p) ∧
    (∀ a ∈ (packFinalState c20GP stackBoxes 1).anchors,
      ∀ p ∈ (packFinalState c20GP stackBoxes 1).placed, ¬ strictlyInside a p)) :=
  ⟨by decide, by decide, by decide,
    C8_anchors c20GP stackBoxes 1 (by decide) (by decide) (by decide)⟩

/-- Claim C9 (counterexample): an unstackable 198 cm box at the floor of a
20GP. The claim computes top_gap = 239 − 198 = 41 > 40 and demands the
+1000000 penalty, but the source measures against the usable height
237 = 239 − OPERATION_BUFFER, gets 39 ≤ 40, and scores −500000. -/
theorem C9_counterexample :
    checkValidity ⟨0, 0, 0⟩ capBox.dim (mkCtx c20GP [capBox] 1).cDim emptyGrid = true ∧
    capBox.unstackable = true ∧
    40 < c20GP.dimensions.height - ((0 : ℚ) + capBox.dim.h) ∧
    candidateScore (mkCtx c20GP [capBox] 1) emptyGrid capBox ⟨0, 0, 0⟩ capBox.dim 0 0 =
      -500000 := by
  refine ⟨by decide, by decide, by decide, by decide⟩

/-- Witness for C9: the unstackable scoring equation evaluated at the
counterexample's candidate. -/
theorem C9_score_witness :
    capBox.unstackable = true ∧
    candidateScore (mkCtx c20GP [capBox] 1) emptyGrid capBox ⟨0, 0, 0⟩ capBox.dim 0 0 =
      (⟨0, 0, 0⟩ : Pos).x * 10000 + (⟨0, 0, 0⟩ : Pos).y * 10 + 0 +
        (if 40 < c20GP.dimensions.height - OPERATION_BUFFER - ((⟨0, 0, 0⟩ : Pos).y + capBox.dim.h)
          then (1000000 : ℚ) else -500000) +
        (if hasAdhesionNeighbor emptyGrid ⟨(⟨0, 0, 0⟩ : Pos).x, (⟨0, 0, 0⟩ : Pos).y, 0⟩
            capBox.dim capBox.cargoId then -ADHESION_BONUS else 0) +
        (if isFlushWithNeighbors emptyGrid ⟨(⟨0, 0, 0⟩ : Pos).x, (⟨0, 0, 0⟩ : Pos).y, 0⟩
            capBox.dim then -FLUSH_BONUS else 0) :=
  ⟨by decide, C9_score c20GP [capBox] 1 emptyGrid capBox ⟨0, 0, 0⟩ capBox.dim 0 0 (by decide)⟩

/-- Claim C10 (confirmed): the returned shipment holds exactly the results of
the pre-filter shipment that placed at least one item — a zero-placement
result is removed even when it is the last one and carries the aggregated
residual (as the C1 counterexample run shows concretely). -/
theorem C10_positive (strategy : Strategy) (cargo : List CargoItem) (r : PackingResult) :
    r ∈ calculateShipment strategy cargo ↔
      r ∈ calcShipmentCore strategy cargo ∧ 0 < r.placedItems.length := by
  unfold calculateShipment
  rw [List.mem_filter]
  simp only [decide_eq_true_eq]
end FD
